import Mathlib

/-!
Shallow embedding of the termflix catalog aggregation / deduplication core,
together with proofs checking the specification's claims against the code.

Source files embedded here:
* `src/lib/termflix/scripts/group_results.py`  (enhanced grouper, "lib" variant)
* `src/bin/termflix_scripts/group_results.py`  (simple grouper, "bin" variant)
* `src/bin/scripts/unified_aggregator.py`
* `src/bin/scripts/tpb_client.py` (+ `tpb_config.py`)
* `src/bin/scripts/fetch_multi_source_catalog.py`
* `src/bin/scripts/search_tpb.py`

Python strings are modelled as `String` / `List Char` (ASCII-focused: the
Python regex classes `\w`, `\s`, `\d` are modelled by their ASCII parts,
which is what every string produced by the pipeline contains).  Python's
`list.sort` (Timsort, stable) is modelled by a stable insertion sort on the
sort key, which computes the same list.  `hashlib.md5` is implemented
bit-for-bit on `Nat` arithmetic.  Network I/O is modelled by an explicit
oracle argument, and Python exceptions by `Except`.
-/

set_option maxRecDepth 400000
set_option maxHeartbeats 1000000

namespace Termflix

/-! ## Character classes (ASCII fragments of Python's regex classes) -/

/-- ASCII lowering, the effect of Python `str.lower()` on ASCII text. -/
def toLowerCh (c : Char) : Char :=
  if 'A' ≤ c && c ≤ 'Z' then Char.ofNat (c.toNat + 32) else c

/-- Python regex `\w` (ASCII part): letters, digits, underscore. -/
def isWordCh (c : Char) : Bool :=
  c.isAlphanum || c == '_'

/-- Python regex `\s` (ASCII part): the six ASCII whitespace characters. -/
def isSpaceCh (c : Char) : Bool :=
  c == ' ' || c == '\t' || c == '\n' || c == '\x0d' || c == '\x0c' || c == '\x0b'

/-- Regex class `[a-z]`. -/
def isLowerAZ (c : Char) : Bool :=
  'a' ≤ c && c ≤ 'z'

/-- Regex class `[a-fA-F0-9]` (a hexadecimal digit, either case). -/
def isHexCh (c : Char) : Bool :=
  c.isDigit || ('a' ≤ c && c ≤ 'f') || ('A' ≤ c && c ≤ 'F')

/-- A lowercase hexadecimal digit `[a-f0-9]`. -/
def isHexLowerCh (c : Char) : Bool :=
  c.isDigit || ('a' ≤ c && c ≤ 'f')

/-- Base32 alphabet `[A-Z2-7]`, case-insensitively (the Python regex carries
`re.IGNORECASE`). -/
def isB32Ch (c : Char) : Bool :=
  ('A' ≤ c && c ≤ 'Z') || ('a' ≤ c && c ≤ 'z') || ('2' ≤ c && c ≤ '7')

/-- Python `str.lower()` on a whole string. -/
def toLowerStr (s : String) : String :=
  String.mk (s.data.map toLowerCh)

/-- Python `str.strip()` (remove leading and trailing whitespace). -/
def pyStripL (l : List Char) : List Char :=
  ((l.dropWhile isSpaceCh).reverse.dropWhile isSpaceCh).reverse

/-- Python `str.strip()` on `String`. -/
def pyStrip (s : String) : String :=
  String.mk (pyStripL s.data)

/-! ## Literal matching and Python `re.sub` on literal alternatives

`pySubGo` models `re.sub(pat, repl, s)` where `pat` is an alternation of
string literals, optionally surrounded by `\b` word boundaries, optionally
with `re.IGNORECASE`.  `re.sub` scans left to right, replaces each
non-overlapping match and resumes immediately after it; boundary lookarounds
inspect the original string.  The `fuel` argument only serves structural
termination, one unit per emitted-or-skipped position; callers pass
`length + 1`, which is always sufficient because every match consumes at
least one character. -/

/-- Does the literal `pat` match at the head of `l` (case-insensitively if `ci`)? -/
def litMatchAt (ci : Bool) : List Char → List Char → Bool
  | [], _ => true
  | _ :: _, [] => false
  | p :: ps, c :: cs =>
    (if ci then toLowerCh p == toLowerCh c else p == c) && litMatchAt ci ps cs

/-- Word-boundary test against the character preceding the match site
(`none` at the start of the string).  All patterns used in the sources start
and end with `\w` characters, so `\b` holds iff the neighbour is absent or
not a word character. -/
def boundaryB : Option Char → Bool
  | none => true
  | some c => !isWordCh c

/-- Word-boundary test against the first character after the match. -/
def boundaryAfterB (l : List Char) : Bool :=
  match l with
  | [] => true
  | c :: _ => !isWordCh c

/-- Pick the first alternative that matches at this position (regex
alternation is first-match, left to right). -/
def pickAlt (ci wb : Bool) (alts : List (List Char)) (prev : Option Char)
    (l : List Char) : Option (List Char) :=
  alts.find? fun p =>
    !p.isEmpty && litMatchAt ci p l &&
      (!wb || (boundaryB prev && boundaryAfterB (l.drop p.length)))

/-- Worker for `pySub`, scanning with the previous original character. -/
def pySubGo (ci wb : Bool) (alts : List (List Char)) (repl : List Char) :
    Nat → Option Char → List Char → List Char
  | 0, _, l => l
  | _ + 1, _, [] => []
  | fuel + 1, prev, c :: cs =>
    match pickAlt ci wb alts prev (c :: cs) with
    | some p =>
        repl ++ pySubGo ci wb alts repl fuel (((c :: cs).take p.length).getLast?)
          ((c :: cs).drop p.length)
    | none => c :: pySubGo ci wb alts repl fuel (some c) cs

/-- `re.sub` for an alternation of literals (see `pySubGo`). -/
def pySub (ci wb : Bool) (alts : List String) (repl : String) (s : String) : String :=
  String.mk (pySubGo ci wb (alts.map String.data) repl.data (s.data.length + 1) none s.data)

/-- Python `x in s` substring test. -/
def hasSub (pat : List Char) : List Char → Bool
  | [] => pat.isEmpty
  | c :: cs => litMatchAt false pat (c :: cs) || hasSub pat cs

/-- Substring test on `String`s. -/
def hasSubStr (pat s : String) : Bool :=
  hasSub pat.data s.data

/-! ## Year extraction

Both groupers share `extract_year`
(`src/lib/termflix/scripts/group_results.py:87` and
`src/bin/termflix_scripts/group_results.py:11`):
first `\((19[2-9]\d|20[0-2]\d)\)`, then
`(?:^|[\W_])(19[2-9]\d|20[0-2]\d)(?:$|[\W_])`. -/

/-- Do the first four characters of `l` form a year `19[2-9]\d | 20[0-2]\d`?
Returns those four characters. -/
def yearAt : List Char → Option (List Char)
  | a :: b :: c :: d :: _ =>
    if a == '1' && b == '9' && ('2' ≤ c && c ≤ '9') && d.isDigit then
      some [a, b, c, d]
    else if a == '2' && b == '0' && ('0' ≤ c && c ≤ '2') && d.isDigit then
      some [a, b, c, d]
    else none
  | _ => none

/-- Leftmost occurrence of `\((19[2-9]\d|20[0-2]\d)\)`, returning the digits. -/
def findYearParen : List Char → Option (List Char)
  | [] => none
  | c :: cs =>
    if c == '(' then
      match yearAt cs with
      | some y => if (cs.drop 4).head? == some ')' then some y else findYearParen cs
      | none => findYearParen cs
    else findYearParen cs

/-- Is the character before the match absent or non-alphanumeric (the
`(?:^|[\W_])` guard; `[\W_]` is exactly "not alphanumeric")? -/
def nonAlnumPrevB : Option Char → Bool
  | none => true
  | some p => !p.isAlphanum

/-- Is the character after the match absent or non-alphanumeric (the
`(?:$|[\W_])` guard)? -/
def nonAlnumHeadB : List Char → Bool
  | [] => true
  | n :: _ => !n.isAlphanum

/-- Leftmost year token with non-alphanumeric (or string-edge) neighbours:
`(?:^|[\W_])(19[2-9]\d|20[0-2]\d)(?:$|[\W_])`. -/
def findYearBounded (prev : Option Char) : List Char → Option (List Char)
  | [] => none
  | c :: cs =>
    match yearAt (c :: cs) with
    | some y =>
        if nonAlnumPrevB prev && nonAlnumHeadB ((c :: cs).drop 4) then some y
        else findYearBounded (some c) cs
    | none => findYearBounded (some c) cs

/-- `extract_year` of both `group_results.py` variants. -/
def extract_year (name : String) : String :=
  match findYearParen name.data with
  | some y => String.mk y
  | none =>
    match findYearBounded none name.data with
    | some y => String.mk y
    | none => ""

/-- Leftmost year token with no boundary requirement:
`\(?(19[2-9]\d|20[0-2]\d)\)?` inside `normalize_title`
(`src/lib/termflix/scripts/group_results.py:177`).  The optional parentheses
never constrain the match, so this is just the leftmost bare year. -/
def findYearTok : List Char → Option (List Char)
  | [] => none
  | c :: cs =>
    match yearAt (c :: cs) with
    | some y => some y
    | none => findYearTok cs

/-! ## Info-hash extraction (`extract_info_hash`,
`src/lib/termflix/scripts/group_results.py:102`). -/

/-- Leftmost `btih:` followed by 40 hex characters; returns those 40
characters (still in original case). -/
def findBtihHex : List Char → Option (List Char)
  | [] => none
  | c :: cs =>
    if litMatchAt false ['b', 't', 'i', 'h', ':'] (c :: cs) then
      let cand := ((c :: cs).drop 5).take 40
      if cand.length == 40 && cand.all isHexCh then some cand
      else findBtihHex cs
    else findBtihHex cs

/-- Leftmost `btih:` followed by 32 base32 characters, case-insensitively;
returns those 32 characters. -/
def findBtihB32 : List Char → Option (List Char)
  | [] => none
  | c :: cs =>
    if litMatchAt true ['b', 't', 'i', 'h', ':'] (c :: cs) then
      let cand := ((c :: cs).drop 5).take 32
      if cand.length == 32 && cand.all isB32Ch then some cand
      else findBtihB32 cs
    else findBtihB32 cs

/-- Value of one base32 character after `.upper()`: `A..Z → 0..25`,
`2..7 → 26..31`. -/
def b32Val (c : Char) : Nat :=
  let u := if 'a' ≤ c && c ≤ 'z' then Char.ofNat (c.toNat - 32) else c
  if 'A' ≤ u && u ≤ 'Z' then u.toNat - 65 else u.toNat - 50 + 26

/-- One lowercase hexadecimal digit for a value `< 16`. -/
def hexDigitCh (n : Nat) : Char :=
  if n < 10 then Char.ofNat (48 + n) else Char.ofNat (97 + (n - 10))

/-- The 2·`len` lowercase hex characters of an integer, most significant
first — Python `bytes.hex()` of the big-endian `len`-byte value `n`. -/
def hexOfNat (len n : Nat) : List Char :=
  (List.range (2 * len)).map fun i => hexDigitCh ((n >>> (4 * (2 * len - 1 - i))) % 16)

/-- `base64.b32decode(x.upper()).hex().lower()` for a 32-character base32
group: 32·5 = 160 bits, i.e. 20 bytes, i.e. 40 hex characters. -/
def b32ToHex (l : List Char) : List Char :=
  hexOfNat 20 (l.foldl (fun n c => n * 32 + b32Val c) 0)

/-- `extract_info_hash` (`src/lib/termflix/scripts/group_results.py:102`):
40-char hex `btih` group lower-cased, else 32-char base32 group decoded to
40 hex chars, else `""`. -/
def extract_info_hash (magnet : String) : String :=
  if magnet == "" then ""
  else
    match findBtihHex magnet.data with
    | some h => String.mk (h.map toLowerCh)
    | none =>
      match findBtihB32 magnet.data with
      | some b => String.mk (b32ToHex b)
      | none => ""

/-! ## Quality / seeds / imdb extraction (lib grouper). -/

/-- `extract_quality` (`src/lib/termflix/scripts/group_results.py:124`):
an ordered chain of case-insensitive substring tests (the name is lowered
first, the needles are lowercase literals). -/
def extract_quality (name : String) : String :=
  let n := (toLowerStr name).data
  if hasSub "2160p".data n || hasSub "4k".data n || hasSub "uhd".data n then "4K"
  else if hasSub "1080p".data n || hasSub "1080i".data n || hasSub "fhd".data n then "1080p"
  else if hasSub "720p".data n || hasSub "hd".data n then "720p"
  else if hasSub "480p".data n || hasSub "sd".data n then "480p"
  else if hasSub "hdtv".data n then "HDTV"
  else if hasSub "cam".data n then "CAM"
  else if hasSub "ts".data n || hasSub "telesync".data n then "TS"
  else if hasSub "tc".data n || hasSub "telecine".data n then "TC"
  else "Unknown"

/-- Digits-to-number, `int()` of a run of decimal digits. -/
def digitsToNat (l : List Char) : Nat :=
  l.foldl (fun n c => n * 10 + (c.toNat - 48)) 0

/-- `extract_seeds` (`src/lib/termflix/scripts/group_results.py:149` and
`src/bin/termflix_scripts/group_results.py:57`): the first run of digits,
else 0. -/
def extract_seeds (text : String) : Nat :=
  digitsToNat ((text.data.dropWhile (fun c => !c.isDigit)).takeWhile (fun c => c.isDigit))

/-- Leftmost match of `tt\d{7,}` (greedy digit run). -/
def findImdb : List Char → Option (List Char)
  | [] => none
  | c :: cs =>
    match c :: cs with
    | 't' :: 't' :: rest =>
      let ds := rest.takeWhile (fun c => c.isDigit)
      if 7 ≤ ds.length then some ('t' :: 't' :: ds) else findImdb cs
    | _ => findImdb cs

/-- `extract_imdb_id` (`src/lib/termflix/scripts/group_results.py:155`). -/
def extract_imdb_id (line : String) : String :=
  match findImdb line.data with
  | some l => String.mk l
  | none => ""

/-! ## Bracketed-span removal and other regex steps used by `normalize_title` -/

/-- Index of the first `cl` in the list, failing at a newline first
(`.` in a lazy `\[.*?\]` does not cross `\n`). -/
def findCloseIdx (cl : Char) : List Char → Option Nat
  | [] => none
  | c :: cs =>
    if c == cl then some 0
    else if c == '\n' then none
    else (findCloseIdx cl cs).map (· + 1)

/-- `re.sub(r'\[.*?\]', '', t)`-style removal of lazily-matched delimited
spans (fuel-driven, one unit per consumed position). -/
def removeDelimGo (op cl : Char) : Nat → List Char → List Char
  | 0, l => l
  | _ + 1, [] => []
  | fuel + 1, c :: cs =>
    if c == op then
      match findCloseIdx cl cs with
      | some i => removeDelimGo op cl fuel (cs.drop (i + 1))
      | none => c :: removeDelimGo op cl fuel cs
    else c :: removeDelimGo op cl fuel cs

/-- Span removal on `String`. -/
def removeDelim (op cl : Char) (s : String) : String :=
  String.mk (removeDelimGo op cl (s.data.length + 1) s.data)

/-- `re.sub(r'[._\-\+]', ' ', t)`: separators become spaces. -/
def sepsToSpace (s : String) : String :=
  String.mk (s.data.map fun c =>
    if c == '.' || c == '_' || c == '-' || c == '+' then ' ' else c)

/-- `re.sub(r'^the\s+', '', t)` on an already-lowercased string. -/
def stepThePrefix (s : String) : String :=
  match s.data with
  | 't' :: 'h' :: 'e' :: rest =>
    let ws := rest.takeWhile isSpaceCh
    if ws.isEmpty then s else String.mk (rest.drop ws.length)
  | _ => s

/-- Does `l` match `,\s*the\s*$` from its head? -/
def commaTheEndB (l : List Char) : Bool :=
  match l with
  | ',' :: r =>
    match r.dropWhile isSpaceCh with
    | 't' :: 'h' :: 'e' :: r2 => r2.all isSpaceCh
    | _ => false
  | _ => false

/-- Worker: truncate at the leftmost position matching `,\s*the\s*$`. -/
def theSuffixGo : List Char → List Char
  | [] => []
  | c :: cs => if commaTheEndB (c :: cs) then [] else c :: theSuffixGo cs

/-- `re.sub(r',\s*the\s*$', '', t)`. -/
def stepTheSuffix (s : String) : String :=
  String.mk (theSuffixGo s.data)

/-- Does `l` match `,\s*the$` from its head (the `unified_aggregator.py`
variant, no trailing whitespace)? -/
def commaTheEndStrictB (l : List Char) : Bool :=
  match l with
  | ',' :: r =>
    match r.dropWhile isSpaceCh with
    | 't' :: 'h' :: 'e' :: r2 => r2.isEmpty
    | _ => false
  | _ => false

/-- Worker: truncate at the leftmost position matching `,\s*the$`. -/
def theSuffixStrictGo : List Char → List Char
  | [] => []
  | c :: cs => if commaTheEndStrictB (c :: cs) then [] else c :: theSuffixStrictGo cs

/-- `re.sub(r',\s*the$', '', t)`. -/
def stepTheSuffixStrict (s : String) : String :=
  String.mk (theSuffixStrictGo s.data)

/-- Worker for `\bv\d+\b` removal: at a boundary-preceded `v` (or `V` when
case-insensitive) followed by a maximal digit run with a boundary after it,
drop the whole token. -/
def vnumGo (ci : Bool) : Nat → Option Char → List Char → List Char
  | 0, _, l => l
  | _ + 1, _, [] => []
  | fuel + 1, prev, c :: cs =>
    let ds := cs.takeWhile (fun d => d.isDigit)
    if (c == 'v' || (ci && c == 'V')) && boundaryB prev && !ds.isEmpty &&
        boundaryAfterB (cs.drop ds.length) then
      vnumGo ci fuel ds.getLast? (cs.drop ds.length)
    else c :: vnumGo ci fuel (some c) cs

/-- `re.sub(r'\bv\d+\b', '', t, flags=re.IGNORECASE)`. -/
def stepVnum (ci : Bool) (s : String) : String :=
  String.mk (vnumGo ci (s.data.length + 1) none s.data)

/-- `re.sub(r'\s+[a-z]{1,5}$', '', t)`: drop a trailing run of one to five
lowercase letters together with the whitespace run before it
(`src/lib/termflix/scripts/group_results.py:221`).  No match exists unless
the maximal trailing letter run has length 1–5 and is directly preceded by
whitespace. -/
def stepTrailShort (s : String) : String :=
  let r := s.data.reverse
  let letters := r.takeWhile isLowerAZ
  if 1 ≤ letters.length && letters.length ≤ 5 then
    let r2 := r.drop letters.length
    let ws := r2.takeWhile isSpaceCh
    if ws.isEmpty then s else String.mk ((r2.drop ws.length).reverse)
  else s

/-- Squeeze runs of spaces produced by `\s+ → ' '` replacement: first map
every whitespace character to a space, then collapse adjacent spaces. -/
def squeezeSpaces : List Char → List Char
  | [] => []
  | [c] => [c]
  | a :: b :: rest =>
    if a == ' ' && b == ' ' then squeezeSpaces (b :: rest)
    else a :: squeezeSpaces (b :: rest)

/-- `re.sub(r'\s+', ' ', t).strip()`. -/
def stepCollapse (s : String) : String :=
  String.mk (pyStripL (squeezeSpaces (s.data.map fun c => if isSpaceCh c then ' ' else c)))

/-! ## `normalize_title` — lib variant
(`src/lib/termflix/scripts/group_results.py:165`). -/

/-- `REMOVAL_TAGS` (`src/lib/termflix/scripts/group_results.py:40`),
in source order. -/
def REMOVAL_TAGS : List String :=
  ["2160p", "1080p", "720p", "480p", "4k", "uhd", "fhd", "hd", "sd",
   "bluray", "blu-ray", "bdrip", "brrip", "web-dl", "webrip", "webdl",
   "hdrip", "dvdrip", "hdtv", "pdtv", "cam", "ts", "tc", "screener", "dvdscr", "r5", "ppvrip",
   "x264", "x265", "x26", "hevc", "h264", "h265", "h26", "avc", "10bit", "8bit", "12bit",
   "xvid", "divx", "av1", "vp9",
   "aac", "ac3", "dts", "truehd", "atmos", "flac", "mp3", "ogg", "opus", "lpcm", "eac3",
   "dd5", "dd51", "dd71", "ddp5", "ddp51", "ddp",
   "51", "71", "20",
   "hdr", "hdr10", "hdr10plus", "dolby", "dovi", "vision", "sdr", "dv",
   "nf", "amzn", "dsnp", "hmax", "atvp", "pcok", "hulu", "max", "pmtp",
   "netflix", "amazon", "disney", "apple", "peacock",
   "yts", "yify", "rarbg", "eztv", "ettv", "sparks", "axxo", "ethel",
   "tepes", "yts mx", "yts lt", "tigole", "qxr", "psypher", "f", "joy",
   "bone", "flux", "ion10", "megusta", "playweb", "cmrg", "psa", "telly", "ntb", "fgt",
   "evo", "geckos",
   "repack", "proper", "real", "extended", "unrated", "directors", "cut",
   "theatrical", "remastered", "imax", "internal", "limited", "remux",
   "criterion", "anniversary", "complete", "dc",
   "v2", "v3", "v4",
   "english", "hindi", "spanish", "french", "german", "italian", "russian",
   "korean", "chinese", "japanese", "arabic", "portuguese", "turkish",
   "en", "eng", "hin", "spa", "fre", "ger", "ita", "rus", "kor", "chi", "jpn",
   "dual", "multi", "subbed", "dubbed", "subs", "hc", "hardcoded",
   "ma",
   "line audio", "mic dubbed"]

/-- The extra tags appended inside `normalize_title` step 8
(`src/lib/termflix/scripts/group_results.py:207`). -/
def EXTRA_TAGS : List String :=
  ["proper", "real", "limited", "extended", "ultimate", "repack",
   "criterion", "uncut", "final", "complete", "special", "edition",
   "rgb", "bone", "en", "eng", "hin", "hindi", "tamil",
   "amzn", "nf", "hmax", "dsnp", "atvp", "pcok", "hulu"]

/-- `ROMAN_NUMERALS` (`src/lib/termflix/scripts/group_results.py:77`),
in source (insertion) order. -/
def ROMAN_NUMERALS : List (String × String) :=
  [("ii", "2"), ("iii", "3"), ("iv", "4"), ("v", "5"),
   ("vi", "6"), ("vii", "7"), ("viii", "8"), ("ix", "9"), ("x", "10")]

/-- Step 2: brackets first, then parentheses
(`src/lib/termflix/scripts/group_results.py:181`). -/
def stepBrackets (s : String) : String :=
  removeDelim '(' ')' (removeDelim '[' ']' s)

/-- Step 4: the sequential case-insensitive hyphen-pattern substitutions
(`src/lib/termflix/scripts/group_results.py:189`).  `hdr10?` is the one
non-literal pattern: at a position it greedily prefers `hdr10` over `hdr1`. -/
def stepHyphens (s : String) : String :=
  let s := pySub true false ["web-dl"] "" s
  let s := pySub true false ["web-rip"] "" s
  let s := pySub true false ["blu-ray"] "" s
  let s := pySub true false ["hdr10", "hdr1"] "" s
  let s := pySub true false ["dts-hd"] "" s
  let s := pySub true false ["h-264"] "" s
  let s := pySub true false ["h-265"] "" s
  let s := pySub true false ["dd5-1"] "" s
  let s := pySub true false ["x-264"] "" s
  pySub true false ["x-265"] "" s

/-- Step 8: remove every tag of `REMOVAL_TAGS ++ EXTRA_TAGS`, one
word-bounded case-insensitive `re.sub` per tag, in list order. -/
def stepTags (s : String) : String :=
  (REMOVAL_TAGS ++ EXTRA_TAGS).foldl (fun t tag => pySub true true [tag] "" t) s

/-- Step 11: Roman-numeral sequel markers to digits, one word-bounded
`re.sub` per pair, in insertion order. -/
def stepRoman (s : String) : String :=
  ROMAN_NUMERALS.foldl (fun t p => pySub false true [p.1] p.2 t) s

/-- Step 12: keep only `[a-z0-9 ]`. -/
def stepCharset (s : String) : String :=
  String.mk (s.data.filter fun c => isLowerAZ c || c.isDigit || c == ' ')

/-- `normalize_title(title, year="")`
(`src/lib/termflix/scripts/group_results.py:165`), steps in source order. -/
def normalize_title (title : String) (year : String) : String :=
  if title == "" then ""
  else
    let t := pyStrip title
    let ey := match findYearTok t.data with
      | some y => String.mk y
      | none => year
    let t := stepBrackets t
    let t := if ey != "" then pySub false true [ey] "" t else t
    let t := stepHyphens t
    let t := sepsToSpace t
    let t := toLowerStr t
    let t := stepThePrefix t
    let t := stepTheSuffix t
    let t := stepTags t
    let t := stepVnum true t
    let t := stepTrailShort t
    let t := stepRoman t
    let t := stepCharset t
    stepCollapse t

/-! ## MD5 (`hashlib.md5(...).hexdigest()`), on `Nat` arithmetic mod 2^32 -/

/-- UTF-8 encoding of one character (Python `str.encode()`), as byte values. -/
def utf8Ch (c : Char) : List Nat :=
  let n := c.toNat
  if n < 128 then [n]
  else if n < 2048 then [192 + n / 64, 128 + n % 64]
  else if n < 65536 then [224 + n / 4096, 128 + (n / 64) % 64, 128 + n % 64]
  else [240 + n / 262144, 128 + (n / 4096) % 64, 128 + (n / 64) % 64, 128 + n % 64]

/-- UTF-8 encoding of a string, as byte values. -/
def utf8Bytes : List Char → List Nat
  | [] => []
  | c :: cs => utf8Ch c ++ utf8Bytes cs

/-- The 64 MD5 sine-derived constants. -/
def md5K : List Nat :=
  [0xd76aa478, 0xe8c7b756, 0x242070db, 0xc1bdceee, 0xf57c0faf, 0x4787c62a, 0xa8304613, 0xfd469501,
   0x698098d8, 0x8b44f7af, 0xffff5bb1, 0x895cd7be, 0x6b901122, 0xfd987193, 0xa679438e, 0x49b40821,
   0xf61e2562, 0xc040b340, 0x265e5a51, 0xe9b6c7aa, 0xd62f105d, 0x02441453, 0xd8a1e681, 0xe7d3fbc8,
   0x21e1cde6, 0xc33707d6, 0xf4d50d87, 0x455a14ed, 0xa9e3e905, 0xfcefa3f8, 0x676f02d9, 0x8d2a4c8a,
   0xfffa3942, 0x8771f681, 0x6d9d6122, 0xfde5380c, 0xa4beea44, 0x4bdecfa9, 0xf6bb4b60, 0xbebfbc70,
   0x289b7ec6, 0xeaa127fa, 0xd4ef3085, 0x04881d05, 0xd9d4d039, 0xe6db99e5, 0x1fa27cf8, 0xc4ac5665,
   0xf4292244, 0x432aff97, 0xab9423a7, 0xfc93a039, 0x655b59c3, 0x8f0ccc92, 0xffeff47d, 0x85845dd1,
   0x6fa87e4f, 0xfe2ce6e0, 0xa3014314, 0x4e0811a1, 0xf7537e82, 0xbd3af235, 0x2ad7d2bb, 0xeb86d391]

/-- The 64 MD5 per-round left-rotation amounts. -/
def md5S : List Nat :=
  [7, 12, 17, 22, 7, 12, 17, 22, 7, 12, 17, 22, 7, 12, 17, 22,
   5, 9, 14, 20, 5, 9, 14, 20, 5, 9, 14, 20, 5, 9, 14, 20,
   4, 11, 16, 23, 4, 11, 16, 23, 4, 11, 16, 23, 4, 11, 16, 23,
   6, 10, 15, 21, 6, 10, 15, 21, 6, 10, 15, 21, 6, 10, 15, 21]

/-- 32-bit left rotation. -/
def rotl32 (x n : Nat) : Nat :=
  ((x <<< n) ||| (x >>> (32 - n))) % 4294967296

/-- `count` little-endian bytes of `n`. -/
def leBytes (count n : Nat) : List Nat :=
  (List.range count).map fun i => (n >>> (8 * i)) % 256

/-- The 16 little-endian 32-bit words of one 64-byte chunk. -/
def md5Words (chunk : List Nat) : List Nat :=
  (List.range 16).map fun j =>
    chunk.getD (4 * j) 0 + (chunk.getD (4 * j + 1) 0) <<< 8 +
      (chunk.getD (4 * j + 2) 0) <<< 16 + (chunk.getD (4 * j + 3) 0) <<< 24

/-- One MD5 round `i` on the running state `(A, B, C, D)`. -/
def md5Round (m : List Nat) (st : Nat × Nat × Nat × Nat) (i : Nat) :
    Nat × Nat × Nat × Nat :=
  let (a, b, c, d) := st
  let notB := b ^^^ 4294967295
  let notD := d ^^^ 4294967295
  let f :=
    if i < 16 then (b &&& c) ||| (notB &&& d)
    else if i < 32 then (d &&& b) ||| (notD &&& c)
    else if i < 48 then b ^^^ c ^^^ d
    else c ^^^ (b ||| notD)
  let g :=
    if i < 16 then i
    else if i < 32 then (5 * i + 1) % 16
    else if i < 48 then (3 * i + 5) % 16
    else (7 * i) % 16
  let f := (f + a + md5K.getD i 0 + m.getD g 0) % 4294967296
  (d, (b + rotl32 f (md5S.getD i 0)) % 4294967296, b, c)

/-- Fold one 64-byte chunk into the 4-word state. -/
def md5Chunk (st : Nat × Nat × Nat × Nat) (chunk : List Nat) : Nat × Nat × Nat × Nat :=
  let m := md5Words chunk
  let (a, b, c, d) := (List.range 64).foldl (md5Round m) st
  let (a0, b0, c0, d0) := st
  ((a0 + a) % 4294967296, (b0 + b) % 4294967296, (c0 + c) % 4294967296, (d0 + d) % 4294967296)

/-- Process `n` chunks of 64 bytes. -/
def md5Go : Nat → Nat × Nat × Nat × Nat → List Nat → Nat × Nat × Nat × Nat
  | 0, st, _ => st
  | n + 1, st, l => md5Go n (md5Chunk st (l.take 64)) (l.drop 64)

/-- Two lowercase hex characters per byte. -/
def bytesToHex : List Nat → List Char
  | [] => []
  | b :: bs => hexDigitCh (b / 16) :: hexDigitCh (b % 16) :: bytesToHex bs

/-- MD5 digest (16 bytes) of a byte list. -/
def md5Bytes (msg : List Nat) : List Nat :=
  let len := msg.length
  let padLen := (56 + 64 - (len + 1) % 64) % 64
  let padded := msg ++ [128] ++ List.replicate padLen 0 ++ leBytes 8 (8 * len)
  let (a, b, c, d) :=
    md5Go (padded.length / 64) (0x67452301, 0xefcdab89, 0x98badcfe, 0x10325476) padded
  leBytes 4 a ++ leBytes 4 b ++ leBytes 4 c ++ leBytes 4 d

/-- `hashlib.md5(s.encode()).hexdigest()`. -/
def md5Hex (s : String) : String :=
  String.mk (bytesToHex (md5Bytes (utf8Bytes s.data)))

/-- `compute_data_hash` (`src/lib/termflix/scripts/group_results.py:237`):
MD5 of `"{norm_name}:{size}:{source}"` truncated to 16 hex characters, where
`norm_name` keeps only `[a-z0-9]` of the lowercased name. -/
def compute_data_hash (name size source : String) : String :=
  let norm_name := String.mk ((toLowerStr name).data.filter fun c => isLowerAZ c || c.isDigit)
  let data := norm_name ++ ":" ++ size ++ ":" ++ source
  String.mk ((md5Hex data).data.take 16)

/-! ## Python `list.sort(key=...)` — a stable sort

Python's sort is stable; a stable sort is uniquely determined by the key
preorder, so we model it by a stable insertion sort.  Every `key=` used in
the sources is (a prefix of) a pair "`Nat` ascending, then `Int` ascending",
so the model is parameterized by two key functions.  `pyInsert2` inserts a
new element after every already-placed element whose key is not greater —
exactly the placement a stable sort gives the element. -/

/-- Strict comparison of the `(k1, k2)` lexicographic key. -/
def ltKey2 (k1 : α → Nat) (k2 : α → Int) (x y : α) : Bool :=
  k1 x < k1 y || (k1 x == k1 y && k2 x < k2 y)

/-- Stable insertion of `x` into a sorted list: `x` goes before the first
element strictly greater than it. -/
def pyInsert2 (k1 : α → Nat) (k2 : α → Int) (x : α) : List α → List α
  | [] => [x]
  | y :: ys => if ltKey2 k1 k2 x y then x :: y :: ys else y :: pyInsert2 k1 k2 x ys

/-- Python `list.sort(key=lambda v: (k1 v, k2 v))`, processing the elements
in encounter order. -/
def pySort2 (k1 : α → Nat) (k2 : α → Int) (l : List α) : List α :=
  l.foldl (fun acc a => pyInsert2 k1 k2 a acc) []

/-! ## Generic list utilities mirroring Python idioms -/

/-- Order-preserving key-based deduplication, keeping the first occurrence
of each key — Python's first-seen filtering with a `seen` set. -/
def dedupByGo (k : α → β) [BEq β] (seen : List β) : List α → List α
  | [] => []
  | x :: xs =>
    if seen.contains (k x) then dedupByGo k seen xs
    else x :: dedupByGo k (seen ++ [k x]) xs

/-- Keep the first occurrence of each key. -/
def dedupKeepFirstBy (k : α → β) [BEq β] (l : List α) : List α :=
  dedupByGo k [] l

/-- Python `list(dict.fromkeys(xs))`: order-preserving deduplication. -/
def dedupKeepFirst [BEq α] (l : List α) : List α :=
  dedupKeepFirstBy id l

/-- Append `x` to the group of `key`, creating the group at the end if new —
one `defaultdict(list)` update.  Group order is key-first-occurrence order,
which is also Python's `dict` iteration order. -/
def insertGrp [BEq κ] (acc : List (κ × List α)) (key : κ) (x : α) : List (κ × List α) :=
  if acc.any (fun p => p.1 == key) then
    acc.map fun p => if p.1 == key then (p.1, p.2 ++ [x]) else p
  else acc ++ [(key, [x])]

/-- Group a list by a key, `defaultdict(list)` style. -/
def groupByKey [BEq κ] (k : α → κ) (l : List α) : List (κ × List α) :=
  l.foldl (fun acc x => insertGrp acc (k x) x) []

/-- `sep.join(parts)` at the character-list level. -/
def joinSepL (sep : Char) : List (List Char) → List Char
  | [] => []
  | [x] => x
  | x :: y :: rest => x ++ sep :: joinSepL sep (y :: rest)

/-- Python `sep.join(parts)` for a one-character separator. -/
def joinSep (sep : Char) (l : List String) : String :=
  String.mk (joinSepL sep (l.map String.data))

/-- Python `s.split(sep)` for a one-character separator: every occurrence
splits, empty segments are kept. -/
def pySplitL (sep : Char) : List Char → List (List Char)
  | [] => [[]]
  | c :: cs =>
    match pySplitL sep cs with
    | [] => [[]]
    | seg :: rest => if c == sep then [] :: seg :: rest else (c :: seg) :: rest

/-- `s.split(sep)` on `String`. -/
def pySplitStr (sep : Char) (s : String) : List String :=
  (pySplitL sep s.data).map String.mk

/-- First whitespace-separated token, Python `s.split()[0]` (an
all-whitespace `s` raises `IndexError` in Python; that case is modelled as
`none` and mapped to `"Unknown"` by the only caller, where it is unreachable
for pipeline-produced lines). -/
def firstWsToken (s : String) : Option String :=
  let l := (s.data.dropWhile isSpaceCh).takeWhile fun c => !isSpaceCh c
  if l.isEmpty then none else some (String.mk l)

/-- Does the string contain four consecutive digits (`re.search(r'\d{4}')`)? -/
def hasDigits4 : List Char → Bool
  | a :: b :: c :: d :: rest =>
    (a.isDigit && b.isDigit && c.isDigit && d.isDigit) || hasDigits4 (b :: c :: d :: rest)
  | _ => false

/-! ## Quality tier table and `print_combined` — lib grouper -/

/-- `QUALITY_ORDER` (`src/lib/termflix/scripts/group_results.py:29`). -/
def QUALITY_ORDER : List (String × Nat) :=
  [("4K", 0), ("2160p", 0), ("1080p", 1), ("720p", 2), ("480p", 3),
   ("HDTV", 4), ("CAM", 5), ("TS", 6), ("TC", 7), ("Unknown", 99)]

/-- Python `dict.get(k, d)` on an association list. -/
def lookupD [BEq κ] (m : List (κ × ν)) (k : κ) (d : ν) : ν :=
  match m.find? (fun p => p.1 == k) with
  | some p => p.2
  | none => d

/-- `get_quality_sort_key` (`src/lib/termflix/scripts/group_results.py:248`):
`QUALITY_ORDER.get(quality, 99)`. -/
def get_quality_sort_key (quality : String) : Nat :=
  lookupD QUALITY_ORDER quality 99

/-- One parsed result line of the lib grouper's `main`
(`src/lib/termflix/scripts/group_results.py:416`), the `item` dict. -/
structure LItem where
  original : String
  source : String
  name : String
  magnet : String
  quality : String
  size : String
  seeds : Nat
  poster : String
  year : String
  imdb_id : String
  hash : String
deriving DecidableEq, Repr

/-- `print_combined` (`src/lib/termflix/scripts/group_results.py:291`),
returning the printed lines.  A single-item group prints its original line;
larger groups print one COMBINED line in which `sources`, `qualities` and
`sizes` are deduplicated (`dict.fromkeys`) while `seeds` and `magnets` stay
per-torrent.  The `(quality, item)` pair list sorted by the quality tier of
its first component is modelled by sorting the items by the tier of their
quality, which yields the same sequence of first components. -/
def print_combined (items : List LItem) (preferred_year : String) : List String :=
  match items with
  | [] => []
  | [i] => [i.original]
  | i0 :: _ :: _ =>
    let best_name :=
      if preferred_year != "" then
        match items.find? (fun i => hasSubStr preferred_year i.name) with
        | some i => i.name
        | none => i0.name
      else
        match items.find? (fun i => hasDigits4 i.name.data) with
        | some i => i.name
        | none => i0.name
    let sources := dedupKeepFirst (items.map (·.source))
    let qualities := dedupKeepFirst
      ((pySort2 (fun i => get_quality_sort_key i.quality) (fun _ => 0) items).map (·.quality))
    let seeds := items.map fun i => toString i.seeds
    let sizes := dedupKeepFirst (items.map (·.size))
    let magnets := items.map (·.magnet)
    let best_poster :=
      match items.find? (fun i => i.poster != "" && i.poster != "N/A") with
      | some i => i.poster
      | none => "N/A"
    let the_imdb :=
      match items.find? (fun i => i.imdb_id != "") with
      | some i => i.imdb_id
      | none => ""
    ["COMBINED|" ++ (best_name ++ "|" ++ joinSep '^' sources ++ "|" ++
      joinSep '^' qualities ++ "|" ++ joinSep '^' seeds ++ "|" ++
      joinSep '^' sizes ++ "|" ++ joinSep '^' magnets ++ "|" ++
      best_poster ++ "|" ++ the_imdb ++ "|" ++ toString items.length)]

/-! ## The lib grouper's `main`, first pass: parse and deduplicate
(`src/lib/termflix/scripts/group_results.py:360`). -/

/-- Parse one (already stripped, `'|'`-containing) input line into the
`item` dict plus the normalized group title.  `none` when the line has
fewer than six fields. -/
def libParseLine (line : String) : Option (LItem × String) :=
  let parts := pySplitStr '|' line
  if parts.length < 6 then none
  else
    let source := parts.getD 0 ""
    let name := parts.getD 1 ""
    let magnet := parts.getD 2 ""
    let quality_raw := parts.getD 3 ""
    let size := parts.getD 4 ""
    let seeds_text := parts.getD 5 "0"
    let poster := parts.getD 6 "N/A"
    let info_hash0 := extract_info_hash magnet
    let info_hash :=
      if info_hash0 == "" then "data_" ++ compute_data_hash name size source
      else info_hash0
    let year := extract_year name
    let title := normalize_title name year
    let quality := extract_quality name
    let quality :=
      if quality != "Unknown" then quality
      else if quality_raw != "" then (firstWsToken quality_raw).getD "Unknown"
      else "Unknown"
    some ({ original := line, source, name, magnet, quality, size,
            seeds := extract_seeds seeds_text, poster, year,
            imdb_id := extract_imdb_id line, hash := info_hash }, title)

/-- The stdin reading loop: strip each line, keep the non-empty ones that
contain `'|'`. -/
def libReadLines (lines : List String) : List String :=
  lines.filterMap fun l =>
    let s := pyStrip l
    if s == "" || !(s.data.contains '|') then none else some s

/-- The dedup fold of the first pass: a record whose hash was already seen
is skipped entirely; a fresh hash is registered even when the record is then
dropped for an empty normalized title. -/
def libFirstPassGo (seen : List String) : List String → List LItem
  | [] => []
  | line :: rest =>
    match libParseLine line with
    | none => libFirstPassGo seen rest
    | some (item, title) =>
      if seen.contains item.hash then libFirstPassGo seen rest
      else if title == "" then libFirstPassGo (seen ++ [item.hash]) rest
      else item :: libFirstPassGo (seen ++ [item.hash]) rest

/-- The surviving records of the lib grouper's first pass, in input order. -/
def libFirstPass (lines : List String) : List LItem :=
  libFirstPassGo [] (libReadLines lines)

/-! ## The bin grouper (`src/bin/termflix_scripts/group_results.py`) -/

/-- `normalize_title` of the bin grouper
(`src/bin/termflix_scripts/group_results.py:26`): separators to spaces,
plain `str.replace` of the year, parens then brackets removed, a smaller
tag vocabulary, `\bv[0-9]+\b`, charset `[a-zA-Z0-9 ]`, collapse, and a
final lowercasing. -/
def normalize_title_bin (title year : String) : String :=
  let t := sepsToSpace title
  let t := if year != "" then pySub false false [year] "" t else t
  let t := removeDelim '(' ')' t
  let t := removeDelim '[' ']' t
  let tags := ["1080p", "720p", "480p", "bluray", "web-dl", "webrip", "hdr", "hdrip",
    "ts", "tc", "cam", "rip", "x264", "x265", "hevc", "aac", "yts", "yify",
    "rarbg", "eztv"]
  let t := tags.foldl (fun t tag => pySub true true [tag] "" t) t
  let t := stepVnum true t
  let t := String.mk (t.data.filter fun c => c.isAlphanum || c == ' ')
  let t := stepCollapse t
  toLowerStr t

/-- One parsed item of the bin grouper's `main`
(`src/bin/termflix_scripts/group_results.py:140`). -/
structure BItem where
  original : String
  source : String
  name : String
  magnet : String
  quality : String
  size : String
  seeds : Nat
  poster : String
  year : String
deriving DecidableEq, Repr

/-- Parse one line of the bin grouper (`main`, first pass). -/
def binParseLine (line : String) : Option (BItem × String) :=
  let parts := pySplitStr '|' line
  if parts.length < 6 then none
  else
    let name := parts.getD 1 ""
    let year := extract_year name
    let title := normalize_title_bin name year
    some ({ original := line, source := parts.getD 0 "", name,
            magnet := parts.getD 2 "", quality := parts.getD 3 "",
            size := parts.getD 4 "", seeds := extract_seeds (parts.getD 5 "0"),
            poster := parts.getD 6 "N/A", year }, title)

/-- `print_combined` of the bin grouper
(`src/bin/termflix_scripts/group_results.py:63`): all five caret-joined
fields are per-torrent, and the line has no trailing count field. -/
def print_combined_bin (items : List BItem) (preferred_year : String) : List String :=
  match items with
  | [] => []
  | [i] => [i.original]
  | i0 :: _ :: _ =>
    let best_name :=
      if preferred_year != "" then
        match items.find? (fun i => hasSubStr preferred_year i.name) with
        | some i => i.name
        | none => i0.name
      else
        match items.find? (fun i => hasDigits4 i.name.data) with
        | some i => i.name
        | none => i0.name
    let best_poster :=
      match items.find? (fun i => i.poster != "" && i.poster != "N/A") with
      | some i => i.poster
      | none => "N/A"
    ["COMBINED|" ++ (best_name ++ "|" ++ joinSep '^' (items.map (·.source)) ++ "|" ++
      joinSep '^' (items.map (·.quality)) ++ "|" ++
      joinSep '^' (items.map fun i => toString i.seeds) ++ "|" ++
      joinSep '^' (items.map (·.size)) ++ "|" ++
      joinSep '^' (items.map (·.magnet)) ++ "|" ++ best_poster)]

/-- The distinct non-empty years of a title bucket
(`known_years = set(i['year'] for i in items if i['year'])`; only its size
and sole element are consumed, so an ordered deduplication is a faithful
model). -/
def knownYearsOf (items : List BItem) : List String :=
  dedupKeepFirst ((items.filter fun i => i.year != "").map (·.year))

/-- The `by_year` partition of a multi-year title bucket
(`src/bin/termflix_scripts/group_results.py:172`): records keyed by their
year, records with no year under the key `"unknown"`, groups in
first-occurrence order. -/
def splitByYear (items : List BItem) : List (String × List BItem) :=
  groupByKey (fun i => if i.year == "" then "unknown" else i.year) items

/-- The bin grouper's second pass for one title bucket
(`src/bin/termflix_scripts/group_results.py:155`). -/
def binEmitGroup (items : List BItem) : List String :=
  let known := knownYearsOf items
  if known.length == 0 then print_combined_bin items ""
  else if known.length == 1 then print_combined_bin items (known.getD 0 "")
  else
    ((splitByYear items).map fun p =>
      print_combined_bin p.2 (if p.1 == "unknown" then "" else p.1)).flatten

/-! ## `unified_aggregator.py` -/

/-- The all-zero 40-hex "no results" sentinel, `'0' * 40`. -/
def zeros40 : String :=
  String.mk (List.replicate 40 '0')

/-- `normalize_title` of `src/bin/scripts/unified_aggregator.py:17`:
lowercase + strip, fold `The` prefix / `, The` suffix, remove `[^\w\s]`,
collapse whitespace. -/
def normalize_title_agg (title : String) : String :=
  if title == "" then ""
  else
    let t := pyStrip (toLowerStr title)
    let t := stepThePrefix t
    let t := stepTheSuffixStrict t
    let t := String.mk (t.data.filter fun c => isWordCh c || isSpaceCh c)
    stepCollapse t

/-- `extract_quality` of `src/bin/scripts/unified_aggregator.py:47`: first
matching lowercase substring in an ordered pattern table. -/
def extract_quality_agg (name : String) : String :=
  let n := (toLowerStr name).data
  let table : List (String × String) :=
    [("2160p", "4K"), ("4k", "4K"), ("uhd", "4K"),
     ("1080p", "1080p"), ("1080i", "1080p"),
     ("720p", "720p"),
     ("480p", "480p"),
     ("cam", "CAM"), ("ts", "TS"), ("tc", "TC")]
  match table.find? (fun p => hasSub p.1.data n) with
  | some p => p.2
  | none => "Unknown"

/-- `extract_source_type` (`src/bin/scripts/unified_aggregator.py:63`). -/
def extract_source_type (name : String) : String :=
  let n := (toLowerStr name).data
  let table : List (String × String) :=
    [("bluray", "BluRay"), ("blu-ray", "BluRay"), ("bdrip", "BluRay"),
     ("web-dl", "WEB-DL"), ("webdl", "WEB-DL"), ("webrip", "WEBRip"),
     ("hdrip", "HDRip"), ("dvdrip", "DVDRip"),
     ("hdtv", "HDTV")]
  match table.find? (fun p => hasSub p.1.data n) with
  | some p => p.2
  | none => ""

/-- `format_size` (`src/bin/scripts/unified_aggregator.py:78`).  The
`f"{size / 1024**3:.1f}GB"` float formatting is modelled by rounding the
exact rational `size·10 / 2^30` half-to-even (the deviation of the binary
double is far below the 0.1 granularity for realistic sizes); the MB branch
is Python's exact floor division. -/
def format_size (size_bytes : Int) : String :=
  if size_bytes ≥ 1073741824 then
    let num := size_bytes.toNat * 10
    let q := num / 1073741824
    let r := num % 1073741824
    let tenths :=
      if 2 * r > 1073741824 then q + 1
      else if 2 * r < 1073741824 then q
      else if q % 2 == 0 then q else q + 1
    toString (tenths / 10) ++ "." ++ toString (tenths % 10) ++ "GB"
  else toString (Int.fdiv size_bytes 1048576) ++ "MB"

/-- One torrent entry inside a movie collection
(`src/bin/scripts/unified_aggregator.py:166`). -/
structure Torrent where
  source : String
  name : String
  hash : String
  link_type : String
  magnet : String
  quality : String
  source_type : String
  seeders : Int
  leechers : Int
  size : String
  size_bytes : Int
deriving DecidableEq, Repr

/-- One movie collection (`src/bin/scripts/unified_aggregator.py:136`).
Python's `sources` set is modelled as an insertion-ordered duplicate-free
list; `finalize` sorts it, so no downstream behaviour depends on the
internal order. -/
structure Movie where
  title : String
  year : String
  imdb_id : String
  poster : String
  rating : String
  sources : List String
  torrents : List Torrent
deriving DecidableEq, Repr

/-- The mutable state of a `UnifiedAggregator`: the `movies` dict in
insertion order and the `seen_hashes` set as a duplicate-free list. -/
structure AggState where
  movies : List (String × Movie)
  seen : List String
deriving DecidableEq, Repr

/-- The arguments of one `add_torrent` call
(`src/bin/scripts/unified_aggregator.py:106`). -/
structure AddCall where
  source : String
  title : String
  year : String
  name : String
  info_hash : String
  seeders : Int
  leechers : Int
  size_bytes : Int
  imdb_id : String
  poster : String
  rating : String
deriving DecidableEq, Repr

/-- `_get_movie_key` (`src/bin/scripts/unified_aggregator.py:101`). -/
def get_movie_key (title year : String) : String :=
  let norm_title := normalize_title_agg title
  if year != "" then norm_title ++ "_" ++ year else norm_title

/-- The fresh movie entry created when a key is first seen
(`src/bin/scripts/unified_aggregator.py:136`). -/
def newMovie (c : AddCall) : Movie :=
  { title := c.title, year := c.year, imdb_id := c.imdb_id, poster := c.poster,
    rating := c.rating, sources := [], torrents := [] }

/-- The per-call movie update: the conditional metadata upgrades, the
`sources.add`, and the torrent append
(`src/bin/scripts/unified_aggregator.py:146`). -/
def foldTorrent (m : Movie) (c : AddCall) : Movie :=
  let m := if c.imdb_id != "" && m.imdb_id == "" then { m with imdb_id := c.imdb_id } else m
  let m := if c.poster != "" && m.poster == "" then { m with poster := c.poster } else m
  let m :=
    if c.rating != "" && (m.rating == "" || m.rating == "N/A") then
      { m with rating := c.rating }
    else m
  let m :=
    if m.sources.contains c.source then m
    else { m with sources := m.sources ++ [c.source] }
  let t : Torrent :=
    { source := c.source, name := c.name, hash := c.info_hash,
      link_type := "magnet", magnet := "magnet:?xt=urn:btih:" ++ c.info_hash,
      quality := extract_quality_agg c.name, source_type := extract_source_type c.name,
      seeders := c.seeders, leechers := c.leechers,
      size := format_size c.size_bytes, size_bytes := c.size_bytes }
  { m with torrents := m.torrents ++ [t] }

/-- `add_torrent` (`src/bin/scripts/unified_aggregator.py:106`): drop empty
and all-zero hashes, drop already-seen (lower-cased) hashes, otherwise
register the hash and fold the torrent into its movie. -/
def add_torrent (st : AggState) (c : AddCall) : AggState :=
  if c.info_hash == "" || c.info_hash == zeros40 then st
  else if st.seen.contains (toLowerStr c.info_hash) then st
  else
    let seen := st.seen ++ [toLowerStr c.info_hash]
    let key := get_movie_key c.title c.year
    let movies :=
      if st.movies.any (fun p => p.1 == key) then st.movies
      else st.movies ++ [(key, newMovie c)]
    let movies := movies.map fun p => if p.1 == key then (p.1, foldTorrent p.2 c) else p
    { movies := movies, seen := seen }

/-- A fresh aggregator folded over a call list. -/
def runAdds (calls : List AddCall) : AggState :=
  calls.foldl add_torrent { movies := [], seen := [] }

/-- The tier table local to `finalize`
(`src/bin/scripts/unified_aggregator.py:216`) — note it differs from the
grouper's `QUALITY_ORDER`. -/
def quality_order_finalize : List (String × Nat) :=
  [("4K", 0), ("1080p", 1), ("720p", 2), ("480p", 3), ("CAM", 4), ("TS", 5),
   ("TC", 6), ("Unknown", 7)]

/-- The torrent sort key of `finalize`: `quality_order.get(quality, 99)`. -/
def finalizeTier (t : Torrent) : Nat :=
  lookupD quality_order_finalize t.quality 99

/-- `movie['torrents'].sort(key=lambda t: (tier, -seeders))`. -/
def sortTorrents (l : List Torrent) : List Torrent :=
  pySort2 finalizeTier (fun t => -t.seeders) l

/-- Lexicographic (code-point) comparison of strings, Python `<`. -/
def ltCharsB : List Char → List Char → Bool
  | [], [] => false
  | [], _ :: _ => true
  | _ :: _, [] => false
  | a :: as, b :: bs => if a == b then ltCharsB as bs else decide (a < b)

/-- Stable insertion for `sorted()` over strings. -/
def strInsert (x : String) : List String → List String
  | [] => [x]
  | y :: ys => if ltCharsB x.data y.data then x :: y :: ys else y :: strInsert x ys

/-- Python `sorted(list_of_strings)`. -/
def sortStringsPy (l : List String) : List String :=
  l.foldl (fun acc a => strInsert a acc) []

/-- The movie sort key of `finalize`
(`-m['torrents'][0]['seeders'] if m['torrents'] else 0`). -/
def finalizeMovieKey (m : Movie) : Int :=
  match m.torrents with
  | [] => 0
  | t :: _ => -t.seeders

/-- `finalize` (`src/bin/scripts/unified_aggregator.py:209`): per movie,
sort the sources and sort the torrents by (tier, -seeders); then sort the
movies by the first torrent's seeders, descending. -/
def finalize (st : AggState) : List Movie :=
  let result := st.movies.map fun p =>
    { p.2 with sources := sortStringsPy p.2.sources, torrents := sortTorrents p.2.torrents }
  pySort2 (fun _ => 0) finalizeMovieKey result

/-! ## `tpb_client.py` (with `tpb_config.py` constants) -/

/-- `TPB_DOMAINS` (`src/bin/scripts/tpb_config.py:8`). -/
def TPB_DOMAINS : List String :=
  ["https://apibay.org", "https://pirateproxy.live", "https://piratebay.live"]

/-- `MAX_RETRIES` (`src/bin/scripts/tpb_config.py:40`). -/
def MAX_RETRIES : Nat := 3

/-- The per-domain attempt loop: up to `n` more attempts, index `i` next;
returns the payload or the last error string.  (The `time.sleep` backoff has
no observable effect on the result.) -/
def tpbAttempts (net : String → Nat → Except String D) (url : String) :
    Nat → Nat → String → Except String D
  | 0, _, last => .error last
  | n + 1, i, _last =>
    match net url i with
    | .ok v => .ok v
    | .error e => tpbAttempts net url n (i + 1) e

/-- The domain loop of `_fetch_with_fallback`. -/
def tpbDomainLoop (net : String → Nat → Except String D) (path : String) :
    List String → String → Except String D
  | [], last => .error ("All TPB domains failed: " ++ last)
  | d :: ds, last =>
    match tpbAttempts net (d ++ "/" ++ path) MAX_RETRIES 0 last with
    | .ok v => .ok v
    | .error e => tpbDomainLoop net path ds e

/-- `TPBClient._fetch_with_fallback` (`src/bin/scripts/tpb_client.py:54`).
Network I/O is the oracle `net url attempt`; a `.error` models any exception
inside the `try` block.  A cache hit returns immediately; the remembered
working domain is moved to the front of the domain list; when every attempt
on every domain fails the Python code `raise`s `RuntimeError`, modelled as
`.error`.  (The cache write and `working_domain` assignment are state
effects invisible in the returned value.) -/
def fetch_with_fallback (working_domain : Option String) (cached : Option D)
    (net : String → Nat → Except String D) (path : String) : Except String D :=
  match cached with
  | some d => .ok d
  | none =>
    let domains :=
      match working_domain with
      | some w => if TPB_DOMAINS.contains w then w :: TPB_DOMAINS.erase w else TPB_DOMAINS
      | none => TPB_DOMAINS
    tpbDomainLoop net path domains "None"

/-- One raw TPB API item, the fields `search` inspects
(`src/bin/scripts/tpb_client.py:95`). -/
structure TpbRaw where
  id : String
  info_hash : String
deriving DecidableEq, Repr

/-- The "no results placeholder" filter of `TPBClient.search`
(`src/bin/scripts/tpb_client.py:101`). -/
def tpb_search_filter (data : List TpbRaw) : List TpbRaw :=
  data.filter fun t => t.id != "0" && t.info_hash != zeros40

/-- The valid-item selection of the standalone `search_tpb` script
(`src/bin/scripts/search_tpb.py:30`): skip records with a missing or
all-zero hash, emit at most ten lines. -/
def search_tpb_valid (items : List TpbRaw) : List TpbRaw :=
  (items.filter fun t => t.info_hash != "" && t.info_hash != zeros40).take 10

/-! ## `fetch_multi_source_catalog.py` -/

/-- `YTS_DOMAINS` (`src/bin/scripts/fetch_multi_source_catalog.py:30`). -/
def YTS_DOMAINS : List String :=
  ["yts.lt", "yts.do", "yts.mx"]

/-- The observable outcome of one YTS domain probe inside
`fetch_yts_movies`: fetch failed (`fetch_url` returned `None`), payload
failed to parse, status was not `"ok"`, or a movie list was obtained. -/
inductive YtsNet (M : Type) where
  | down
  | parseFail
  | notOk
  | ok (movies : List M)

/-- The domain loop of `fetch_yts_movies`: every non-`ok` outcome falls
through to the next domain. -/
def ytsDomainLoop (net : String → YtsNet M) : List String → List M
  | [] => []
  | d :: ds =>
    match net d with
    | .ok ms => ms
    | _ => ytsDomainLoop net ds

/-- `fetch_yts_movies` (`src/bin/scripts/fetch_multi_source_catalog.py:113`):
cache hit short-circuits; otherwise each domain is tried in order and an
empty list is returned when all fail.  (Query parameters only shape the URL;
the oracle is keyed by domain.) -/
def fetch_yts_movies (cached : Option (List M)) (net : String → YtsNet M) : List M :=
  match cached with
  | some ms => ms
  | none => ytsDomainLoop net YTS_DOMAINS

/-- One source torrent inside `aggregate_movie`
(`src/bin/scripts/fetch_multi_source_catalog.py:196`): the fields all three
collectors produce and the COMBINED line consumes. -/
structure STorrent where
  source : String
  hash : String
  quality : String
  size : String
  seeds : Int
  magnet : String
deriving DecidableEq, Repr

/-- The YTS movie fields `aggregate_movie` reads
(`src/bin/scripts/fetch_multi_source_catalog.py:376`).  `rating` is kept as
its display string (empty when falsy); `torrents` is the movie's own torrent
list after `parse_yts_torrents`. -/
structure YMovie where
  title : String
  year : String
  poster : String
  imdb_code : String
  rating : String
  genres : List String
  torrents : List STorrent
deriving DecidableEq, Repr

/-- The hash-dedup merge loop of `aggregate_movie`
(`src/bin/scripts/fetch_multi_source_catalog.py:400`): append each torrent
whose hash is unseen and whose source is truthy. -/
def mergeTorrents (acc : List STorrent × List String) (ts : List STorrent) :
    List STorrent × List String :=
  ts.foldl
    (fun acc t =>
      if !acc.2.contains t.hash && t.source != "" then (acc.1 ++ [t], acc.2 ++ [t.hash])
      else acc)
    acc

/-- The merged torrent list of `aggregate_movie`: the movie's own YTS
torrents seeded into the seen-set, then the TPB and YTS search results
folded in (`src/bin/scripts/fetch_multi_source_catalog.py:397`). -/
def aggMerged (mv : YMovie) (tpbT ytsSearchT : List STorrent) : List STorrent :=
  (mergeTorrents (mergeTorrents (mv.torrents, mv.torrents.map (·.hash)) tpbT) ytsSearchT).1

/-- The final torrent list of `aggregate_movie`: empty sources filtered out,
then a stable sort by seeds descending
(`src/bin/scripts/fetch_multi_source_catalog.py:414`). -/
def aggSorted (mv : YMovie) (tpbT ytsSearchT : List STorrent) : List STorrent :=
  pySort2 (fun _ => 0) (fun t => -t.seeds)
    ((aggMerged mv tpbT ytsSearchT).filter fun t => t.source != "")

/-- The COMBINED line `aggregate_movie` renders for a torrent list: every
per-torrent field is a parallel array over the same list
(`src/bin/scripts/fetch_multi_source_catalog.py:422`). -/
def aggLine (mv : YMovie) (ts : List STorrent) : String :=
  "COMBINED|" ++ (mv.title ++ " (" ++ mv.year ++ ")" ++ "|" ++
    joinSep '^' (ts.map (·.source)) ++ "|" ++ joinSep '^' (ts.map (·.quality)) ++ "|" ++
    joinSep '^' (ts.map fun t => toString t.seeds) ++ "|" ++
    joinSep '^' (ts.map (·.size)) ++ "|" ++ joinSep '^' (ts.map (·.magnet)) ++ "|" ++
    mv.poster ++ "|" ++ (if mv.rating != "" then mv.rating ++ "/10" else "N/A") ++ "|" ++
    (if mv.genres.isEmpty then "Unknown" else String.intercalate ", " mv.genres) ++ "|" ++
    toString ts.length)

/-- `aggregate_movie` (`src/bin/scripts/fetch_multi_source_catalog.py:371`),
given the already-fetched TPB and YTS search results: merge, filter empty
sources, sort by seeds descending (stable), and render the COMBINED line. -/
def aggregate_movie (mv : YMovie) (tpbT ytsSearchT : List STorrent) : Option String :=
  if mv.title == "" then none
  else if (aggMerged mv tpbT ytsSearchT).isEmpty then none
  else if ((aggMerged mv tpbT ytsSearchT).filter fun t => t.source != "").isEmpty then none
  else some (aggLine mv (aggSorted mv tpbT ytsSearchT))

/-! # Lemmas

## The stable sort model -/

/-- The non-strict lexicographic key order established by `pySort2`. -/
def le2 (k1 : α → Nat) (k2 : α → Int) (x y : α) : Prop :=
  k1 x < k1 y ∨ (k1 x = k1 y ∧ k2 x ≤ k2 y)

/-- The declarative description of `groupByKey`: one group per distinct key
(keys in first-occurrence order), each group holding the filter of its key. -/
def specGroups [BEq κ] (k : α → κ) (l : List α) : List (κ × List α) :=
  (dedupKeepFirst (l.map k)).map fun key => (key, l.filter fun x => k x == key)

/-- The COMBINED line the lib grouper prints for two same-source,
same-quality, same-size torrents — the C3 counterexample input. -/
def c3_line : String :=
  (print_combined
    [⟨"o1", "TPB", "Name A", "m1", "720p", "700MB", 5, "N/A", "", "", "h1"⟩,
     ⟨"o2", "TPB", "Name B", "m2", "720p", "700MB", 9, "N/A", "", "", "h2"⟩] "").getD 0 ""

/-- The concrete two-element group used by the C3 amended witness. -/
def c3_wit_items : List LItem :=
  [⟨"o1", "TPB", "A", "m1", "720p", "1GB", 5, "N/A", "", "", "h1"⟩,
   ⟨"o2", "YTS", "B", "m2", "1080p", "2GB", 9, "N/A", "", "", "h2"⟩]

/-- The lower-cased hashes of one movie entry's torrents. -/
def perMovieHashes (p : String × Movie) : List String :=
  p.2.torrents.map fun t => toLowerStr t.hash

/-- The lower-cased hashes of every torrent held anywhere in the aggregator
state, in movie-insertion and torrent-insertion order. -/
def allHashes (st : AggState) : List String :=
  (st.movies.map perMovieHashes).flatten

/-- The aggregator invariant: movie keys are unique, every stored torrent
hash is unique, and every stored hash is registered in the seen-set. -/
def AggInv (st : AggState) : Prop :=
  (st.movies.map Prod.fst).Nodup ∧ (allHashes st).Nodup ∧
    ∀ h ∈ allHashes st, h ∈ st.seen

/-- The seeder count of a release's best-ranked torrent, with a torrentless
release counting as zero — the claim-facing reading of `finalize`'s movie
sort key. -/
def firstSeeders (m : Movie) : Int :=
  match m.torrents with
  | [] => 0
  | t :: _ => t.seeders

/-- The qualities `unified_aggregator.extract_quality` can produce. -/
def qualProducible : List String :=
  ["4K", "1080p", "720p", "480p", "CAM", "TS", "TC", "Unknown"]

/-- The per-movie producible-quality invariant. -/
def QualInv (st : AggState) : Prop :=
  ∀ p ∈ st.movies, ∀ t ∈ p.2.torrents, t.quality ∈ qualProducible

/-- A concrete two-quality call sequence for the C6 witness. -/
def c6calls : List AddCall :=
  [⟨"TPB", "Alpha", "1999", "Alpha 1999 720p", "a111111111111111111111111111111111111111",
      7, 0, 0, "", "", ""⟩,
   ⟨"YTS", "Alpha", "1999", "Alpha 1999 2160p", "b222222222222222222222222222222222222222",
      3, 0, 0, "", "", ""⟩]

/-- A concrete torrent list for the C6 witness's stability part. -/
def c6list : List Torrent :=
  [⟨"TPB", "A", "h1", "magnet", "m1", "720p", "Unknown", 3, 0, "700 MB", 0⟩,
   ⟨"YTS", "B", "h2", "magnet", "m2", "720p", "Unknown", 9, 0, "1.4 GB", 0⟩,
   ⟨"TPB", "C", "h3", "magnet", "m3", "720p", "Unknown", 3, 0, "650 MB", 0⟩]

theorem ltKey2_iff {k1 : α → Nat} {k2 : α → Int} {x y : α} :
    ltKey2 k1 k2 x y = true ↔ (k1 x < k1 y ∨ (k1 x = k1 y ∧ k2 x < k2 y)) := by
  simp [ltKey2]

theorem le2_of_not_ltKey2 {k1 : α → Nat} {k2 : α → Int} {x y : α}
    (h : ltKey2 k1 k2 x y = false) : le2 k1 k2 y x := by
  have h' : ¬ (k1 x < k1 y ∨ (k1 x = k1 y ∧ k2 x < k2 y)) := by
    rw [← ltKey2_iff]; simp [h]
  unfold le2; omega

theorem le2_of_ltKey2 {k1 : α → Nat} {k2 : α → Int} {x y : α}
    (h : ltKey2 k1 k2 x y = true) : le2 k1 k2 x y := by
  have h' := ltKey2_iff.mp h
  unfold le2; omega

theorem le2_trans {k1 : α → Nat} {k2 : α → Int} {x y z : α}
    (h1 : le2 k1 k2 x y) (h2 : le2 k1 k2 y z) : le2 k1 k2 x z := by
  unfold le2 at *; omega

theorem mem_pyInsert2 {k1 : α → Nat} {k2 : α → Int} {x z : α} {l : List α} :
    z ∈ pyInsert2 k1 k2 x l ↔ z = x ∨ z ∈ l := by
  induction l with
  | nil => simp [pyInsert2]
  | cons y ys ih =>
    unfold pyInsert2
    by_cases h : ltKey2 k1 k2 x y
    · simp [h]
    · simp only [if_neg h, List.mem_cons, ih]
      tauto

theorem pairwise_pyInsert2 {k1 : α → Nat} {k2 : α → Int} {x : α} {l : List α}
    (h : l.Pairwise (le2 k1 k2)) :
    (pyInsert2 k1 k2 x l).Pairwise (le2 k1 k2) := by
  induction l with
  | nil => simp [pyInsert2]
  | cons y ys ih =>
    rw [List.pairwise_cons] at h
    unfold pyInsert2
    by_cases hlt : ltKey2 k1 k2 x y
    · rw [if_pos hlt, List.pairwise_cons]
      refine ⟨?_, List.pairwise_cons.mpr h⟩
      intro z hz
      rcases List.mem_cons.mp hz with rfl | hz
      · exact le2_of_ltKey2 hlt
      · exact le2_trans (le2_of_ltKey2 hlt) (h.1 z hz)
    · rw [if_neg hlt, List.pairwise_cons]
      refine ⟨?_, ih h.2⟩
      intro z hz
      rcases mem_pyInsert2.mp hz with rfl | hz
      · exact le2_of_not_ltKey2 (Bool.eq_false_iff.mpr hlt)
      · exact h.1 z hz

theorem pairwise_pySort2_aux {k1 : α → Nat} {k2 : α → Int} (l : List α) :
    ∀ acc : List α, acc.Pairwise (le2 k1 k2) →
      (l.foldl (fun acc a => pyInsert2 k1 k2 a acc) acc).Pairwise (le2 k1 k2) := by
  induction l with
  | nil => intro acc h; exact h
  | cons a l ih =>
    intro acc h
    exact ih _ (pairwise_pyInsert2 h)

/-- The sorted list produced by the Python sort model is sorted by the
non-strict key order. -/
theorem pairwise_pySort2 {k1 : α → Nat} {k2 : α → Int} (l : List α) :
    (pySort2 k1 k2 l).Pairwise (le2 k1 k2) :=
  pairwise_pySort2_aux l [] (by simp)

theorem mem_pySort2_aux {k1 : α → Nat} {k2 : α → Int} (l : List α) :
    ∀ (acc : List α) (z : α),
      z ∈ l.foldl (fun acc a => pyInsert2 k1 k2 a acc) acc ↔ z ∈ acc ∨ z ∈ l := by
  induction l with
  | nil => intro acc z; simp
  | cons a l ih =>
    intro acc z
    rw [List.foldl_cons, ih, mem_pyInsert2]
    simp
    tauto

theorem mem_pySort2 {k1 : α → Nat} {k2 : α → Int} {l : List α} {z : α} :
    z ∈ pySort2 k1 k2 l ↔ z ∈ l := by
  rw [pySort2, mem_pySort2_aux]
  simp

theorem filter_pyInsert2_pos {k1 : α → Nat} {k2 : α → Int} {p : α → Bool} {n : Nat} {i : Int}
    (hcl : ∀ x, p x = true → k1 x = n ∧ k2 x = i) {x : α} (hx : p x = true) :
    ∀ {acc : List α}, acc.Pairwise (le2 k1 k2) →
      (pyInsert2 k1 k2 x acc).filter p = acc.filter p ++ [x] := by
  intro acc
  induction acc with
  | nil => intro _; simp [pyInsert2, hx]
  | cons y ys ih =>
    intro hs
    rw [List.pairwise_cons] at hs
    unfold pyInsert2
    by_cases hlt : ltKey2 k1 k2 x y
    · rw [if_pos hlt]
      have hys : (y :: ys).filter p = [] := by
        rw [List.filter_eq_nil_iff]
        intro z hz hpz
        have hzk := hcl z hpz
        have hxk := hcl x hx
        rcases List.mem_cons.mp hz with rfl | hz'
        · have := ltKey2_iff.mp hlt; omega
        · have hyz := hs.1 z hz'
          have := ltKey2_iff.mp hlt
          unfold le2 at hyz; omega
      rw [hys, List.filter_cons_of_pos hx, hys]
      rfl
    · rw [if_neg hlt]
      by_cases hy : p y
      · rw [List.filter_cons_of_pos hy, List.filter_cons_of_pos hy, ih hs.2]
        rfl
      · rw [List.filter_cons_of_neg (by simp [hy]), List.filter_cons_of_neg (by simp [hy]),
          ih hs.2]

theorem filter_pyInsert2_neg {k1 : α → Nat} {k2 : α → Int} {p : α → Bool} {x : α}
    (hx : p x = false) (acc : List α) :
    (pyInsert2 k1 k2 x acc).filter p = acc.filter p := by
  induction acc with
  | nil => simp [pyInsert2, hx]
  | cons y ys ih =>
    unfold pyInsert2
    by_cases hlt : ltKey2 k1 k2 x y
    · rw [if_pos hlt, List.filter_cons_of_neg (by simp [hx])]
    · rw [if_neg hlt]
      by_cases hy : p y
      · rw [List.filter_cons_of_pos hy, List.filter_cons_of_pos hy, ih]
      · rw [List.filter_cons_of_neg (by simp [hy]), List.filter_cons_of_neg (by simp [hy]), ih]

theorem filter_pySort2_aux {k1 : α → Nat} {k2 : α → Int} {p : α → Bool} {n : Nat} {i : Int}
    (hcl : ∀ x, p x = true → k1 x = n ∧ k2 x = i) (l : List α) :
    ∀ acc : List α, acc.Pairwise (le2 k1 k2) →
      (l.foldl (fun acc a => pyInsert2 k1 k2 a acc) acc).filter p =
        acc.filter p ++ l.filter p := by
  induction l with
  | nil => intro acc _; simp
  | cons a l ih =>
    intro acc hs
    rw [List.foldl_cons, ih _ (pairwise_pyInsert2 hs)]
    by_cases ha : p a
    · rw [filter_pyInsert2_pos hcl ha hs, List.filter_cons_of_pos ha, List.append_assoc]
      rfl
    · rw [filter_pyInsert2_neg (Bool.eq_false_iff.mpr ha), List.filter_cons_of_neg (by simp [ha])]

/-- Stability of the Python sort model: the elements of one key class keep
their relative (encounter) order — filtering a key class out of the sorted
list gives exactly the filter of the input. -/
theorem filter_pySort2 {k1 : α → Nat} {k2 : α → Int} {p : α → Bool} {n : Nat} {i : Int}
    (hcl : ∀ x, p x = true → k1 x = n ∧ k2 x = i) (l : List α) :
    (pySort2 k1 k2 l).filter p = l.filter p := by
  rw [pySort2, filter_pySort2_aux hcl l [] (by simp)]
  rfl

/-! ## Deduplication lemmas -/

theorem mem_of_mem_dedupByGo {k : α → β} [BEq β] {seen : List β} {l : List α} {x : α}
    (h : x ∈ dedupByGo k seen l) : x ∈ l := by
  induction l generalizing seen with
  | nil => simp [dedupByGo] at h
  | cons y ys ih =>
    unfold dedupByGo at h
    by_cases hc : seen.contains (k y)
    · rw [if_pos hc] at h
      exact List.mem_cons_of_mem _ (ih h)
    · rw [if_neg hc] at h
      rcases List.mem_cons.mp h with rfl | h'
      · exact List.mem_cons_self _ _
      · exact List.mem_cons_of_mem _ (ih h')

theorem key_not_seen_of_mem_dedupByGo {k : α → β} [BEq β] [LawfulBEq β]
    {seen : List β} {l : List α} {x : α}
    (h : x ∈ dedupByGo k seen l) : k x ∉ seen := by
  induction l generalizing seen with
  | nil => simp [dedupByGo] at h
  | cons y ys ih =>
    unfold dedupByGo at h
    by_cases hc : seen.contains (k y)
    · rw [if_pos hc] at h
      exact ih h
    · rw [if_neg hc] at h
      rcases List.mem_cons.mp h with rfl | h'
      · intro hmem
        exact hc (List.elem_eq_true_of_mem hmem)
      · have := ih h'
        intro hmem
        exact this (List.mem_append_left _ hmem)

theorem nodup_map_dedupByGo (k : α → β) [BEq β] [LawfulBEq β] (l : List α) :
    ∀ seen : List β, ((dedupByGo k seen l).map k).Nodup := by
  induction l with
  | nil => intro seen; simp [dedupByGo]
  | cons y ys ih =>
    intro seen
    unfold dedupByGo
    by_cases hc : seen.contains (k y)
    · rw [if_pos hc]; exact ih seen
    · rw [if_neg hc, List.map_cons, List.nodup_cons]
      refine ⟨?_, ih _⟩
      intro hmem
      rcases List.mem_map.mp hmem with ⟨z, hz, hkz⟩
      have := key_not_seen_of_mem_dedupByGo hz
      exact this (by rw [hkz]; exact List.mem_append_right _ (List.mem_singleton.mpr rfl))

theorem mem_dedupByGo_id_iff [BEq α] [LawfulBEq α] {l : List α} {x : α} :
    ∀ {seen : List α}, x ∈ dedupByGo id seen l ↔ (x ∉ seen ∧ x ∈ l) := by
  induction l with
  | nil => intro seen; simp [dedupByGo]
  | cons y ys ih =>
    intro seen
    unfold dedupByGo
    by_cases hc : seen.contains (id y)
    · rw [if_pos hc]
      rw [ih]
      have hy : y ∈ seen := by
        have := hc
        simpa [List.contains_iff_exists_mem_beq, beq_iff_eq] using this
      constructor
      · rintro ⟨h1, h2⟩; exact ⟨h1, List.mem_cons_of_mem _ h2⟩
      · rintro ⟨h1, h2⟩
        rcases List.mem_cons.mp h2 with rfl | h2'
        · exact absurd hy h1
        · exact ⟨h1, h2'⟩
    · rw [if_neg hc]
      have hy : y ∉ seen := by
        intro hmem
        exact hc (List.elem_eq_true_of_mem hmem)
      constructor
      · intro h
        rcases List.mem_cons.mp h with rfl | h'
        · exact ⟨hy, List.mem_cons_self _ _⟩
        · have := ih.mp h'
          refine ⟨fun hm => this.1 (List.mem_append_left _ hm), List.mem_cons_of_mem _ this.2⟩
      · rintro ⟨h1, h2⟩
        rcases List.mem_cons.mp h2 with rfl | h2'
        · exact List.mem_cons_self _ _
        · by_cases hxy : x = y
          · subst hxy; exact List.mem_cons_self _ _
          · refine List.mem_cons_of_mem _ (ih.mpr ⟨?_, h2'⟩)
            intro hm
            rcases List.mem_append.mp hm with hm' | hm'
            · exact h1 hm'
            · exact hxy (List.mem_singleton.mp hm')

/-- Membership in an order-preserving dedup is membership in the original. -/
theorem mem_dedupKeepFirst_iff [BEq α] [LawfulBEq α] {l : List α} {x : α} :
    x ∈ dedupKeepFirst l ↔ x ∈ l := by
  rw [dedupKeepFirst, dedupKeepFirstBy, mem_dedupByGo_id_iff]
  simp

/-- An order-preserving dedup has no duplicates. -/
theorem nodup_dedupKeepFirst [BEq α] [LawfulBEq α] (l : List α) :
    (dedupKeepFirst l).Nodup := by
  have := nodup_map_dedupByGo (id : α → α) l []
  simpa using this

/-! ## Split / join round trip -/

theorem pySplitL_ne_nil (sep : Char) (l : List Char) : pySplitL sep l ≠ [] := by
  cases l with
  | nil => simp [pySplitL]
  | cons c cs =>
    unfold pySplitL
    cases h : pySplitL sep cs with
    | nil => simp
    | cons seg rest =>
      by_cases hc : c == sep <;> simp [hc]

theorem pySplitL_sepFree {sep : Char} {x : List Char} (h : ∀ c ∈ x, c ≠ sep) :
    pySplitL sep x = [x] := by
  induction x with
  | nil => rfl
  | cons c cs ih =>
    have hc : (c == sep) = false := by
      simp only [beq_eq_false_iff_ne]
      exact h c (List.mem_cons_self _ _)
    have ih' := ih fun d hd => h d (List.mem_cons_of_mem _ hd)
    unfold pySplitL
    rw [ih']
    simp [hc]

theorem pySplitL_append_sep {sep : Char} {x r : List Char} (h : ∀ c ∈ x, c ≠ sep) :
    pySplitL sep (x ++ sep :: r) = x :: pySplitL sep r := by
  induction x with
  | nil =>
    simp only [List.nil_append]
    cases hr : pySplitL sep r with
    | nil => exact absurd hr (pySplitL_ne_nil sep r)
    | cons seg rest => simp [pySplitL, hr]
  | cons c cs ih =>
    have hc : (c == sep) = false := by
      simp only [beq_eq_false_iff_ne]
      exact h c (List.mem_cons_self _ _)
    have ih' := ih fun d hd => h d (List.mem_cons_of_mem _ hd)
    simp only [List.cons_append]
    simp [pySplitL, ih', hc]

/-- Splitting a `sep`-join recovers the parts, provided the parts are
non-empty as a list and `sep`-free. -/
theorem pySplitL_joinSepL {sep : Char} {l : List (List Char)} (hne : l ≠ [])
    (hfree : ∀ x ∈ l, ∀ c ∈ x, c ≠ sep) :
    pySplitL sep (joinSepL sep l) = l := by
  induction l with
  | nil => exact absurd rfl hne
  | cons x rest ih =>
    cases rest with
    | nil =>
      rw [joinSepL, pySplitL_sepFree (hfree x (List.mem_cons_self _ _))]
    | cons y rest' =>
      rw [joinSepL, pySplitL_append_sep (hfree x (List.mem_cons_self _ _))]
      rw [ih (by simp) fun z hz => hfree z (List.mem_cons_of_mem _ hz)]

/-- `String`-level split/join round trip. -/
theorem pySplitStr_joinSep {sep : Char} {l : List String} (hne : l ≠ [])
    (hfree : ∀ x ∈ l, ∀ c ∈ x.data, c ≠ sep) :
    pySplitStr sep (joinSep sep l) = l := by
  unfold pySplitStr joinSep
  have hne' : l.map String.data ≠ [] := by
    intro h
    exact hne (List.map_eq_nil_iff.mp h)
  have hfree' : ∀ x ∈ l.map String.data, ∀ c ∈ x, c ≠ sep := by
    intro x hx c hc
    rcases List.mem_map.mp hx with ⟨s, hs, rfl⟩
    exact hfree s hs c hc
  rw [show (String.mk (joinSepL sep (l.map String.data))).data = joinSepL sep (l.map String.data) from rfl]
  rw [pySplitL_joinSepL hne' hfree']
  simp only [List.map_map]
  have hid : String.mk ∘ String.data = id := funext fun s => rfl
  rw [hid, List.map_id]

/-! ## `groupByKey` specification -/

theorem dedupByGo_id_append_singleton [BEq α] [LawfulBEq α] (m : List α) (y : α) :
    ∀ seen : List α,
      dedupByGo id seen (m ++ [y]) =
        dedupByGo id seen m ++ (if y ∈ seen ∨ y ∈ m then [] else [y]) := by
  induction m with
  | nil =>
    intro seen
    simp only [List.nil_append, dedupByGo]
    by_cases hy : y ∈ seen
    · have : seen.contains (id y) = true := List.elem_eq_true_of_mem hy
      rw [if_pos this]
      simp [hy, dedupByGo]
    · have : ¬ seen.contains (id y) = true := by
        intro hc
        exact hy (by simpa [List.contains_iff_exists_mem_beq, beq_iff_eq] using hc)
      rw [if_neg this]
      simp [hy, dedupByGo]
  | cons x m' ih =>
    intro seen
    simp only [List.cons_append]
    unfold dedupByGo
    by_cases hc : seen.contains (id x)
    · rw [if_pos hc, if_pos hc, ih]
      have hx : x ∈ seen := by simpa [List.contains_iff_exists_mem_beq, beq_iff_eq] using hc
      have hiff : (y ∈ seen ∨ y ∈ m') ↔ (y ∈ seen ∨ y ∈ x :: m') := by
        simp only [List.mem_cons]
        constructor
        · tauto
        · rintro (h | rfl | h) <;> tauto
      simp only [hiff]
    · rw [if_neg hc, if_neg hc, ih]
      have hiff : (y ∈ seen ++ [x] ∨ y ∈ m') ↔ (y ∈ seen ∨ y ∈ x :: m') := by
        simp only [List.mem_append, List.mem_cons, List.mem_singleton]
        tauto
      simp only [id_eq, hiff, List.cons_append]

theorem dedupKeepFirst_append_singleton [BEq α] [LawfulBEq α] (m : List α) (y : α) :
    dedupKeepFirst (m ++ [y]) =
      dedupKeepFirst m ++ (if y ∈ m then [] else [y]) := by
  rw [dedupKeepFirst, dedupKeepFirstBy, dedupByGo_id_append_singleton m y []]
  simp [dedupKeepFirst, dedupKeepFirstBy]

/-- The grouping fold computes its declarative specification. -/
theorem groupByKey_eq_specGroups [BEq κ] [LawfulBEq κ] (k : α → κ) (l : List α) :
    groupByKey k l = specGroups k l := by
  induction l using List.reverseRecOn with
  | nil => rfl
  | append_singleton l x ih =>
    rw [groupByKey, List.foldl_append, List.foldl_cons, List.foldl_nil,
      show l.foldl (fun acc z => insertGrp acc (k z) z) [] = groupByKey k l from rfl, ih]
    by_cases hmem : k x ∈ l.map k
    · have hany : (specGroups k l).any (fun p => p.1 == k x) = true := by
        rw [List.any_eq_true]
        refine ⟨(k x, l.filter fun z => k z == k x), ?_, by simp⟩
        rw [specGroups]
        exact List.mem_map_of_mem _ (mem_dedupKeepFirst_iff.mpr hmem)
      rw [insertGrp, if_pos hany, specGroups, specGroups, List.map_map,
        List.map_append]
      simp only [List.map_cons, List.map_nil]
      rw [dedupKeepFirst_append_singleton, if_pos hmem, List.append_nil]
      apply List.map_congr_left
      intro key hkey
      simp only [Function.comp_apply]
      by_cases hkx : key = k x
      · subst hkx
        rw [if_pos (by simp), List.filter_append]
        simp
      · have hbf : (k x == key) = false := by
          simp only [beq_eq_false_iff_ne]
          exact fun h => hkx h.symm
        rw [if_neg (by simp [hkx]), List.filter_append]
        simp [hbf]
    · have hany : (specGroups k l).any (fun p => p.1 == k x) = false := by
        rw [Bool.eq_false_iff]
        intro hc
        rw [List.any_eq_true] at hc
        rcases hc with ⟨p, hp, hpk⟩
        rw [specGroups] at hp
        rcases List.mem_map.mp hp with ⟨key, hkey, rfl⟩
        have : key ∈ l.map k := mem_dedupKeepFirst_iff.mp hkey
        rw [beq_iff_eq] at hpk
        exact hmem (hpk ▸ this)
      rw [insertGrp, if_neg (by simp [hany]), specGroups, specGroups, List.map_append]
      simp only [List.map_cons, List.map_nil]
      rw [dedupKeepFirst_append_singleton, if_neg hmem, List.map_append]
      congr 1
      · apply List.map_congr_left
        intro key hkey
        have hkk : key ∈ l.map k := mem_dedupKeepFirst_iff.mp hkey
        have hbf : (k x == key) = false := by
          simp only [beq_eq_false_iff_ne]
          intro h
          exact hmem (h ▸ hkk)
        rw [List.filter_append]
        simp [hbf]
      · simp only [List.map_cons, List.map_nil]
        have hfl : l.filter (fun z => k z == k x) = [] := by
          rw [List.filter_eq_nil_iff]
          intro z hz hkz
          rw [beq_iff_eq] at hkz
          exact hmem (hkz ▸ List.mem_map_of_mem k hz)
        rw [List.filter_append, hfl]
        simp

/-! ## Shape lemmas for the extraction functions -/

theorem length_mk_string (l : List Char) : (String.mk l).length = l.length := rfl

theorem yearAt_length {l : List Char} {y : List Char} (h : yearAt l = some y) :
    y.length = 4 := by
  unfold yearAt at h
  split at h
  · split_ifs at h <;> (cases h; rfl)
  · cases h

theorem findYearParen_length {l y : List Char} (h : findYearParen l = some y) :
    y.length = 4 := by
  induction l with
  | nil => cases h
  | cons c cs ih =>
    unfold findYearParen at h
    split at h
    · split at h
      next y' hy =>
        split_ifs at h
        · cases h; exact yearAt_length hy
        · exact ih h
      next hy => exact ih h
    · exact ih h

theorem findYearBounded_length {l y : List Char} :
    ∀ {prev : Option Char}, findYearBounded prev l = some y → y.length = 4 := by
  induction l with
  | nil => intro prev h; cases h
  | cons c cs ih =>
    intro prev h
    unfold findYearBounded at h
    split at h
    next y' hy =>
      split_ifs at h
      · cases h; exact yearAt_length hy
      · exact ih h
    next hy => exact ih h

theorem extract_year_length (s : String) :
    extract_year s = "" ∨ (extract_year s).length = 4 := by
  unfold extract_year
  cases hp : findYearParen s.data with
  | some y => right; rw [length_mk_string]; exact findYearParen_length hp
  | none =>
    cases hb : findYearBounded none s.data with
    | some y => right; rw [length_mk_string]; exact findYearBounded_length hb
    | none => left; rfl

/-- `extract_year` never returns the literal `"unknown"`. -/
theorem extract_year_ne_unknown (s : String) : extract_year s ≠ "unknown" := by
  rcases extract_year_length s with h | h
  · rw [h]; decide
  · intro hc
    rw [hc] at h
    exact absurd h (by decide)

theorem findBtihHex_length {l h : List Char} (hf : findBtihHex l = some h) :
    h.length = 40 := by
  induction l with
  | nil => simp [findBtihHex] at hf
  | cons c cs ih =>
    unfold findBtihHex at hf
    by_cases hm : litMatchAt false ['b', 't', 'i', 'h', ':'] (c :: cs)
    · rw [if_pos hm] at hf
      by_cases hg : (((c :: cs).drop 5).take 40).length == 40 &&
          (((c :: cs).drop 5).take 40).all isHexCh
      · rw [if_pos hg] at hf
        cases hf
        have := (Bool.and_eq_true _ _).mp hg
        exact beq_iff_eq.mp this.1
      · rw [if_neg hg] at hf
        exact ih hf
    · rw [if_neg hm] at hf
      exact ih hf

theorem hexOfNat_length (len n : Nat) : (hexOfNat len n).length = 2 * len := by
  unfold hexOfNat
  rw [List.length_map, List.length_range]

theorem b32ToHex_length (l : List Char) : (b32ToHex l).length = 40 := by
  unfold b32ToHex
  rw [hexOfNat_length]

/-- Every non-empty result of `extract_info_hash` has exactly 40 characters. -/
theorem extract_info_hash_length {m : String} (h : extract_info_hash m ≠ "") :
    (extract_info_hash m).length = 40 := by
  by_cases hm : m == ""
  · exfalso
    apply h
    unfold extract_info_hash
    rw [if_pos hm]
  · unfold extract_info_hash
    unfold extract_info_hash at h
    rw [if_neg hm]
    rw [if_neg hm] at h
    cases hh : findBtihHex m.data with
    | some hx =>
      show (String.mk (hx.map toLowerCh)).length = 40
      rw [length_mk_string, List.length_map]
      exact findBtihHex_length hh
    | none =>
      rw [hh] at h
      cases hb : findBtihB32 m.data with
      | some b =>
        show (String.mk (b32ToHex b)).length = 40
        rw [length_mk_string]
        exact b32ToHex_length b
      | none =>
        rw [hb] at h
        exact absurd rfl h

theorem bytesToHex_length (l : List Nat) : (bytesToHex l).length = 2 * l.length := by
  induction l with
  | nil => rfl
  | cons b bs ih => simp [bytesToHex, ih]; omega

theorem leBytes_length (count n : Nat) : (leBytes count n).length = count := by
  unfold leBytes
  rw [List.length_map, List.length_range]

theorem md5Bytes_length (msg : List Nat) : (md5Bytes msg).length = 16 := by
  unfold md5Bytes
  rcases hgo : md5Go ((msg ++ [128] ++ List.replicate ((56 + 64 - (msg.length + 1) % 64) % 64) 0 ++ leBytes 8 (8 * msg.length)).length / 64) (0x67452301, 0xefcdab89, 0x98badcfe, 0x10325476) (msg ++ [128] ++ List.replicate ((56 + 64 - (msg.length + 1) % 64) % 64) 0 ++ leBytes 8 (8 * msg.length)) with ⟨a, b, c, d⟩
  simp only [hgo]
  simp [leBytes_length]

theorem md5Hex_length (s : String) : (md5Hex s).length = 32 := by
  unfold md5Hex
  rw [length_mk_string, bytesToHex_length, md5Bytes_length]

theorem pyInsert2_length {k1 : α → Nat} {k2 : α → Int} (x : α) (l : List α) :
    (pyInsert2 k1 k2 x l).length = l.length + 1 := by
  induction l with
  | nil => rfl
  | cons y ys ih =>
    unfold pyInsert2
    by_cases h : ltKey2 k1 k2 x y
    · simp [h]
    · simp [h, ih]

theorem pySort2_length {k1 : α → Nat} {k2 : α → Int} (l : List α) :
    (pySort2 k1 k2 l).length = l.length := by
  suffices h : ∀ acc : List α,
      (l.foldl (fun acc a => pyInsert2 k1 k2 a acc) acc).length = acc.length + l.length by
    simpa using h []
  induction l with
  | nil => intro acc; simp
  | cons a l ih =>
    intro acc
    rw [List.foldl_cons, ih, pyInsert2_length]
    simp [List.length_cons]
    omega

theorem dedupByGo_length_le (k : α → β) [BEq β] (l : List α) :
    ∀ seen : List β, (dedupByGo k seen l).length ≤ l.length := by
  induction l with
  | nil => intro seen; simp [dedupByGo]
  | cons x xs ih =>
    intro seen
    unfold dedupByGo
    by_cases hc : seen.contains (k x)
    · rw [if_pos hc]
      exact Nat.le_succ_of_le (ih seen)
    · rw [if_neg hc]
      simpa using ih (seen ++ [k x])

theorem dedupKeepFirst_length_le [BEq α] (l : List α) :
    (dedupKeepFirst l).length ≤ l.length :=
  dedupByGo_length_le id l []

/-- The fallback identity has exactly 16 hex characters. -/
theorem compute_data_hash_length (name size source : String) :
    (compute_data_hash name size source).length = 16 := by
  unfold compute_data_hash
  rw [length_mk_string, List.length_take]
  have h32 := md5Hex_length (String.mk ((toLowerStr name).data.filter fun c => isLowerAZ c || c.isDigit) ++ ":" ++ size ++ ":" ++ source)
  rw [show (md5Hex (String.mk ((toLowerStr name).data.filter fun c => isLowerAZ c || c.isDigit) ++ ":" ++ size ++ ":" ++ source)).length = (md5Hex (String.mk ((toLowerStr name).data.filter fun c => isLowerAZ c || c.isDigit) ++ ":" ++ size ++ ":" ++ source)).data.length from rfl] at h32
  omega

/-! # Claims -/

/-- C9: a group of exactly one record is emitted as its original
pipe-delimited input line verbatim (in both grouper variants), the empty
group prints nothing, and the COMBINED formatting branch is taken only for
groups of two or more records. -/
theorem claim_c9 :
    (∀ (x : LItem) (py : String), print_combined [x] py = [x.original]) ∧
    (∀ (x : BItem) (py : String), print_combined_bin [x] py = [x.original]) ∧
    (∀ (py : String), print_combined [] py = [] ∧ print_combined_bin [] py = []) ∧
    (∀ (items : List LItem) (py : String), 2 ≤ items.length →
      ∃ rest, print_combined items py = ["COMBINED|" ++ rest]) ∧
    (∀ (items : List BItem) (py : String), 2 ≤ items.length →
      ∃ rest, print_combined_bin items py = ["COMBINED|" ++ rest]) := by
  refine ⟨fun x py => rfl, fun x py => rfl, fun py => ⟨rfl, rfl⟩, ?_, ?_⟩
  · intro items py h
    rcases items with _ | ⟨i0, _ | ⟨i1, tl⟩⟩
    · simp at h
    · simp at h
    · exact ⟨_, rfl⟩
  · intro items py h
    rcases items with _ | ⟨i0, _ | ⟨i1, tl⟩⟩
    · simp at h
    · simp at h
    · exact ⟨_, rfl⟩

/-- C9 witness: the theorem applied to a singleton group and to a
two-element group. -/
theorem claim_c9_witness :
    print_combined [⟨"orig line", "TPB", "N", "m", "q", "s", 1, "N/A", "", "", "h"⟩] "" =
      ["orig line"] ∧
    ∃ rest,
      print_combined [⟨"o1", "TPB", "A", "m1", "720p", "1GB", 5, "N/A", "", "", "h1"⟩,
        ⟨"o2", "YTS", "B", "m2", "1080p", "2GB", 9, "N/A", "", "", "h2"⟩] "" =
        ["COMBINED|" ++ rest] :=
  ⟨claim_c9.1 _ "", claim_c9.2.2.2.1 _ "" (by decide)⟩

/-- C3 counterexample: on this emitted COMBINED line the caret-split
`sources` field has one entry while the line's final field states a torrent
count of two — the parallel-array property fails for `print_combined` of
`src/lib/termflix/scripts/group_results.py` because `sources`, `qualities`
and `sizes` are deduplicated. -/
theorem claim_c3_counterexample :
    (pySplitStr '|' c3_line).getD 0 "" = "COMBINED" ∧
    (pySplitStr '^' ((pySplitStr '|' c3_line).getD 2 "")).length ≠
      extract_seeds ((pySplitStr '|' c3_line).getD 9 "") := by
  constructor
  · decide
  · decide

/-- C3 as amended: in `aggregate_movie` COMBINED lines all five per-torrent
fields are parallel arrays of length equal to the stated torrent count; in
the lib grouper's `print_combined` lines only `seeds` and `magnets` are
per-torrent arrays of length equal to the stated count, while `sources`,
`qualities` and `sizes` are order-preserving deduplications of length at
most the count; and a caret-join of caret-free parts splits back to exactly
those parts. -/
theorem claim_c3_amended :
    (∀ (mv : YMovie) (tpbT ytsSearchT : List STorrent) (line : String),
      aggregate_movie mv tpbT ytsSearchT = some line →
      ∃ ts : List STorrent, ts ≠ [] ∧
        line = "COMBINED|" ++ (mv.title ++ " (" ++ mv.year ++ ")" ++ "|" ++
          joinSep '^' (ts.map (·.source)) ++ "|" ++ joinSep '^' (ts.map (·.quality)) ++ "|" ++
          joinSep '^' (ts.map fun t => toString t.seeds) ++ "|" ++
          joinSep '^' (ts.map (·.size)) ++ "|" ++ joinSep '^' (ts.map (·.magnet)) ++ "|" ++
          mv.poster ++ "|" ++ (if mv.rating != "" then mv.rating ++ "/10" else "N/A") ++ "|" ++
          (if mv.genres.isEmpty then "Unknown" else String.intercalate ", " mv.genres) ++ "|" ++
          toString ts.length) ∧
        (ts.map (·.source)).length = ts.length ∧
        (ts.map (·.quality)).length = ts.length ∧
        ((ts.map fun t => toString t.seeds).length = ts.length ∧
          (ts.map (·.size)).length = ts.length ∧
          (ts.map (·.magnet)).length = ts.length)) ∧
    (∀ (items : List LItem) (py : String), 2 ≤ items.length →
      ∃ bn poster imdb,
        print_combined items py = ["COMBINED|" ++ (bn ++ "|" ++
          joinSep '^' (dedupKeepFirst (items.map (·.source))) ++ "|" ++
          joinSep '^' (dedupKeepFirst
            ((pySort2 (fun i => get_quality_sort_key i.quality) (fun _ => 0) items).map
              (·.quality))) ++ "|" ++
          joinSep '^' (items.map fun i => toString i.seeds) ++ "|" ++
          joinSep '^' (dedupKeepFirst (items.map (·.size))) ++ "|" ++
          joinSep '^' (items.map (·.magnet)) ++ "|" ++ poster ++ "|" ++ imdb ++ "|" ++
          toString items.length)] ∧
        (items.map fun i => toString i.seeds).length = items.length ∧
        (items.map (·.magnet)).length = items.length ∧
        ((dedupKeepFirst (items.map (·.source))).length ≤ items.length ∧
          (dedupKeepFirst
            ((pySort2 (fun i => get_quality_sort_key i.quality) (fun _ => 0) items).map
              (·.quality))).length ≤ items.length ∧
          (dedupKeepFirst (items.map (·.size))).length ≤ items.length)) ∧
    (∀ l : List String, l ≠ [] → (∀ x ∈ l, ∀ c ∈ x.data, c ≠ '^') →
      pySplitStr '^' (joinSep '^' l) = l) := by
  refine ⟨?_, ?_, fun l h1 h2 => pySplitStr_joinSep h1 h2⟩
  · intro mv tpbT ytsSearchT line h
    unfold aggregate_movie at h
    split_ifs at h with h1 h2 h3
    cases h
    refine ⟨aggSorted mv tpbT ytsSearchT, ?_, rfl, by simp, by simp, by simp, by simp, by simp⟩
    intro hnil
    unfold aggSorted at hnil
    have hlen := @pySort2_length STorrent (fun _ => (0 : Nat)) (fun t : STorrent => -t.seeds)
      ((aggMerged mv tpbT ytsSearchT).filter fun t => t.source != "")
    rw [hnil] at hlen
    simp only [List.length_nil] at hlen
    apply h3
    rw [List.isEmpty_iff]
    exact List.eq_nil_of_length_eq_zero hlen.symm
  · intro items py h
    rcases items with _ | ⟨i0, _ | ⟨i1, tl⟩⟩
    · simp at h
    · simp at h
    · refine ⟨_, _, _, rfl, by simp, by simp, ?_, ?_, ?_⟩
      · exact le_trans (dedupKeepFirst_length_le _) (by simp)
      · refine le_trans (dedupKeepFirst_length_le _) ?_
        rw [List.length_map, pySort2_length]
      · exact le_trans (dedupKeepFirst_length_le _) (by simp)

/-- C3 amended witness: the amended theorem applied to a concrete
two-element `print_combined` group and a concrete caret-join. -/
theorem claim_c3_amended_witness :
    (∃ bn poster imdb,
      print_combined c3_wit_items "" = ["COMBINED|" ++ (bn ++ "|" ++
        joinSep '^' (dedupKeepFirst (c3_wit_items.map (·.source))) ++ "|" ++
        joinSep '^' (dedupKeepFirst
          ((pySort2 (fun i => get_quality_sort_key i.quality) (fun _ => 0) c3_wit_items).map
            (·.quality))) ++ "|" ++
        joinSep '^' (c3_wit_items.map fun i => toString i.seeds) ++ "|" ++
        joinSep '^' (dedupKeepFirst (c3_wit_items.map (·.size))) ++ "|" ++
        joinSep '^' (c3_wit_items.map (·.magnet)) ++ "|" ++ poster ++ "|" ++ imdb ++ "|" ++
        toString c3_wit_items.length)] ∧
      (c3_wit_items.map fun i => toString i.seeds).length = c3_wit_items.length ∧
      (c3_wit_items.map (·.magnet)).length = c3_wit_items.length ∧
      ((dedupKeepFirst (c3_wit_items.map (·.source))).length ≤ c3_wit_items.length ∧
        (dedupKeepFirst
          ((pySort2 (fun i => get_quality_sort_key i.quality) (fun _ => 0) c3_wit_items).map
            (·.quality))).length ≤ c3_wit_items.length ∧
        (dedupKeepFirst (c3_wit_items.map (·.size))).length ≤ c3_wit_items.length)) ∧
    pySplitStr '^' (joinSep '^' ["TPB", "YTS"]) = ["TPB", "YTS"] :=
  ⟨claim_c3_amended.2.1 c3_wit_items "" (by decide),
   claim_c3_amended.2.2 ["TPB", "YTS"] (by decide) (by decide)⟩

/-- String length distributes over append. -/
theorem string_length_append (a b : String) : (a ++ b).length = a.length + b.length := by
  rw [show (a ++ b).length = (a ++ b).data.length from rfl, String.data_append,
    List.length_append]
  rfl

/-- C8: a fallback identity (`"data_"` plus the 16-character truncated MD5 of
normalized name, size and source) is never equal to any non-empty identifier
`extract_info_hash` can return, because the latter always has exactly 40
characters while the fallback has 21. -/
theorem claim_c8 (name size source magnet : String)
    (h : extract_info_hash magnet ≠ "") :
    "data_" ++ compute_data_hash name size source ≠ extract_info_hash magnet := by
  intro hc
  have h40 := extract_info_hash_length h
  have h16 := compute_data_hash_length name size source
  have hlen : ("data_" ++ compute_data_hash name size source).length = 21 := by
    rw [string_length_append, h16]
    rfl
  rw [hc, h40] at hlen
  cases hlen

/-- C8 witness: the theorem applied at a concrete magnet and record. -/
theorem claim_c8_witness :
    "data_" ++ compute_data_hash "Name" "1GB" "TPB" ≠
      extract_info_hash "magnet:?xt=urn:btih:aaaaaaaaaaaaaaaaaaaaaaaaaaaaaaaaaaaaaaaa" :=
  claim_c8 "Name" "1GB" "TPB" _ (by decide)

/-- A string on which every phase of the lib grouper's `normalize_title` is
a no-op is a fixed point of `normalize_title`. -/
theorem normalize_title_stable (t : String)
    (h1 : pyStrip t = t) (h2 : findYearTok t.data = none) (h3 : stepBrackets t = t)
    (h4 : stepHyphens t = t) (h5 : sepsToSpace t = t) (h6 : toLowerStr t = t)
    (h7 : stepThePrefix t = t) (h8 : stepTheSuffix t = t) (h9 : stepTags t = t)
    (h10 : stepVnum true t = t) (h11 : stepTrailShort t = t) (h12 : stepRoman t = t)
    (h13 : stepCharset t = t) (h14 : stepCollapse t = t) :
    normalize_title t "" = t := by
  by_cases ht : t = ""
  · subst ht; rfl
  · have ht' : (t == "") = false := by simp [ht]
    simp only [normalize_title, ht', Bool.false_eq_true, if_false, h1, h2, h3, h4, h5, h6,
      h7, h8, h9, h10, h11, h12, h13, h14, bne_self_eq_false]

/-- C5 (amended): the normalizer is idempotent on every input whose
normalized form is stable under each normalization phase — in particular the
second pass must find no year token, no removable tag word, and no trailing
run of one to five letters.  (In general `normalize_title` is not
idempotent; see the counterexample.) -/
theorem claim_c5 (s y : String)
    (h1 : pyStrip (normalize_title s y) = normalize_title s y)
    (h2 : findYearTok (normalize_title s y).data = none)
    (h3 : stepBrackets (normalize_title s y) = normalize_title s y)
    (h4 : stepHyphens (normalize_title s y) = normalize_title s y)
    (h5 : sepsToSpace (normalize_title s y) = normalize_title s y)
    (h6 : toLowerStr (normalize_title s y) = normalize_title s y)
    (h7 : stepThePrefix (normalize_title s y) = normalize_title s y)
    (h8 : stepTheSuffix (normalize_title s y) = normalize_title s y)
    (h9 : stepTags (normalize_title s y) = normalize_title s y)
    (h10 : stepVnum true (normalize_title s y) = normalize_title s y)
    (h11 : stepTrailShort (normalize_title s y) = normalize_title s y)
    (h12 : stepRoman (normalize_title s y) = normalize_title s y)
    (h13 : stepCharset (normalize_title s y) = normalize_title s y)
    (h14 : stepCollapse (normalize_title s y) = normalize_title s y) :
    normalize_title (normalize_title s y) "" = normalize_title s y :=
  normalize_title_stable _ h1 h2 h3 h4 h5 h6 h7 h8 h9 h10 h11 h12 h13 h14

/-- C5 counterexample: `normalize_title` is not idempotent as claimed — the
trailing-short-word step (`\s+[a-z]{1,5}$`) fires again on its own output,
so a second application of the normalizer gives a different key. -/
theorem claim_c5_counterexample :
    normalize_title (normalize_title "ab cd ef" "") "" ≠ normalize_title "ab cd ef" "" := by
  decide

/-- C5 witness: the amended idempotence applied at a concrete stable input. -/
theorem claim_c5_witness :
    normalize_title (normalize_title "abcdefg" "") "" = normalize_title "abcdefg" "" := by
  have hN : normalize_title "abcdefg" "" = "abcdefg" := by decide
  exact claim_c5 "abcdefg" "" (by rw [hN]; decide) (by rw [hN]; decide) (by rw [hN]; decide)
    (by rw [hN]; decide) (by rw [hN]; decide) (by rw [hN]; decide) (by rw [hN]; decide)
    (by rw [hN]; decide) (by rw [hN]; decide) (by rw [hN]; decide) (by rw [hN]; decide)
    (by rw [hN]; decide) (by rw [hN]; decide) (by rw [hN]; decide)

/-- Helper for C4: every attempt on one domain failing with `errMsg` makes
the per-domain loop return that error. -/
theorem tpbAttempts_fail {D : Type} {net : String → Nat → Except String D} {errMsg : String}
    (hfail : ∀ u i, net u i = .error errMsg) (url : String) :
    ∀ (n : Nat) (i : Nat) (last : String), 1 ≤ n →
      tpbAttempts net url n i last = .error errMsg := by
  intro n
  induction n with
  | zero => intro i last h; cases h
  | succ n ih =>
    intro i last _
    unfold tpbAttempts
    rw [hfail url i]
    cases n with
    | zero => rfl
    | succ m => exact ih (i + 1) errMsg (Nat.succ_le_succ (Nat.zero_le m))

/-- Helper for C4: with every attempt failing, the domain loop over a
non-empty list raises the `RuntimeError` message. -/
theorem tpbDomainLoop_fail {D : Type} {net : String → Nat → Except String D} {errMsg : String}
    (hfail : ∀ u i, net u i = .error errMsg) (path : String) :
    ∀ (ds : List String) (last : String), ds ≠ [] →
      tpbDomainLoop net path ds last = .error ("All TPB domains failed: " ++ errMsg) := by
  intro ds
  induction ds with
  | nil => intro last h; exact absurd rfl h
  | cons d ds ih =>
    intro last _
    unfold tpbDomainLoop
    rw [tpbAttempts_fail hfail _ MAX_RETRIES 0 last (by decide)]
    cases ds with
    | nil => rfl
    | cons d' ds' => exact ih errMsg (by simp)

/-- C4 as amended: `TPBClient._fetch_with_fallback` does **not** return an
empty list when every mirror fails — it raises
`RuntimeError("All TPB domains failed: ...")` to its caller (modelled as
`Except.error`); the YTS movie fetcher, by contrast, absorbs total failure
and returns an empty list. -/
theorem claim_c4_amended :
    (∀ (D : Type) (wd : Option String) (path : String)
      (net : String → Nat → Except String D) (errMsg : String),
      (∀ u i, net u i = .error errMsg) →
      fetch_with_fallback wd none net path =
        .error ("All TPB domains failed: " ++ errMsg)) ∧
    (∀ (M : Type) (net : String → YtsNet M),
      (∀ d, net d = .down) → fetch_yts_movies none net = []) := by
  constructor
  · intro D wd path net errMsg hfail
    unfold fetch_with_fallback
    cases wd with
    | none => exact tpbDomainLoop_fail hfail path TPB_DOMAINS "None" (by decide)
    | some w =>
      show tpbDomainLoop net path
          (if TPB_DOMAINS.contains w then w :: TPB_DOMAINS.erase w else TPB_DOMAINS) "None" = _
      by_cases hw : TPB_DOMAINS.contains w
      · rw [if_pos hw]
        exact tpbDomainLoop_fail hfail path _ "None" (List.cons_ne_nil _ _)
      · rw [if_neg hw]
        exact tpbDomainLoop_fail hfail path TPB_DOMAINS "None" (by decide)
  · intro M net hfail
    show ytsDomainLoop net YTS_DOMAINS = []
    have : ∀ ds : List String, ytsDomainLoop net ds = [] := by
      intro ds
      induction ds with
      | nil => rfl
      | cons d ds ih =>
        unfold ytsDomainLoop
        rw [hfail d]
        exact ih
    exact this YTS_DOMAINS

/-- C4 counterexample: the claim "a Source Client fetch never raises" is
false for `TPBClient`: with the cache cold and every attempt on every
configured domain failing, `_fetch_with_fallback` ends in
`raise RuntimeError(...)` — the model returns `Except.error`, not `.ok []`. -/
theorem claim_c4_counterexample :
    fetch_with_fallback (D := List TpbRaw) none none
      (fun _ _ => .error "timeout") "q.php?q=movie&cat=0" =
      .error "All TPB domains failed: timeout" := by
  rfl

/-- C4 witness: the amended theorem applied to a concrete always-failing
network oracle for both clients. -/
theorem claim_c4_witness :
    fetch_with_fallback (D := List TpbRaw) none none
        (fun _ _ => .error "timeout") "q.php?q=x" =
      .error ("All TPB domains failed: " ++ "timeout") ∧
    fetch_yts_movies (M := YMovie) none (fun _ => .down) = [] :=
  ⟨claim_c4_amended.1 (List TpbRaw) none "q.php?q=x" (fun _ _ => .error "timeout")
      "timeout" (fun _ _ => rfl),
   claim_c4_amended.2 YMovie (fun _ => .down) (fun _ => rfl)⟩

/-- C7: a record whose info hash is the all-zero 40-hex sentinel is
discarded everywhere — `add_torrent` leaves the aggregator state (seen-set
and movie collections alike) completely unchanged, `TPBClient.search`
filters such items out of its result list, and the standalone `search_tpb`
script never emits a line for them. -/
theorem claim_c7 :
    (∀ (st : AggState) (c : AddCall), c.info_hash = "" ∨ c.info_hash = zeros40 →
      add_torrent st c = st) ∧
    (∀ (data : List TpbRaw) (t : TpbRaw), t ∈ tpb_search_filter data →
      t.info_hash ≠ zeros40) ∧
    (∀ (items : List TpbRaw) (t : TpbRaw), t ∈ search_tpb_valid items →
      t.info_hash ≠ zeros40 ∧ t.info_hash ≠ "") := by
  refine ⟨?_, ?_, ?_⟩
  · intro st c h
    unfold add_torrent
    rcases h with h | h <;> simp [h]
  · intro data t ht
    have := (List.mem_filter.mp ht).2
    have h2 := (Bool.and_eq_true _ _).mp this
    simpa using h2.2
  · intro items t ht
    have hmem : t ∈ (items.filter fun t => t.info_hash != "" && t.info_hash != zeros40) :=
      (List.take_sublist 10 _).subset ht
    have := (List.mem_filter.mp hmem).2
    have h2 := (Bool.and_eq_true _ _).mp this
    constructor
    · simpa using h2.2
    · simpa using h2.1

/-- C7 witness: the theorem applied to a concrete all-zero-hash call and to
concrete search results containing the sentinel. -/
theorem claim_c7_witness :
    add_torrent { movies := [], seen := [] }
        ⟨"TPB", "T", "2020", "N", zeros40, 5, 0, 0, "", "", ""⟩ =
      { movies := [], seen := [] } ∧
    (⟨"7", "aaaa"⟩ : TpbRaw).info_hash ≠ zeros40 :=
  ⟨claim_c7.1 _ _ (Or.inr rfl),
   claim_c7.2.1 [⟨"0", zeros40⟩, ⟨"7", "aaaa"⟩] ⟨"7", "aaaa"⟩ (by decide)⟩

/-- C1: in a title bucket with at least two distinct known years, the
`by_year` partition of the bin grouper emits one Release per distinct year
plus at most one "unknown"-keyed Release: the group keys are duplicate-free,
every group is non-empty (so each emits exactly one line), every
known-year group carries exactly the records of that one year (so no
Release mixes two known years and no no-year record lands in a known-year
Release), every distinct year gets a group, and the "unknown" group holds
exactly the records with no extracted year. -/
theorem claim_c1 (items : List BItem)
    (hy : ∀ i ∈ items, i.year = extract_year i.name)
    (_h2 : 2 ≤ (knownYearsOf items).length) :
    ((splitByYear items).map Prod.fst).Nodup ∧
    (∀ p ∈ splitByYear items, p.2 ≠ []) ∧
    (∀ p ∈ splitByYear items, p.1 ≠ "unknown" →
      p.1 ∈ knownYearsOf items ∧ ∀ i ∈ p.2, i.year = p.1) ∧
    (∀ y ∈ knownYearsOf items, ∃ p ∈ splitByYear items, p.1 = y) ∧
    (∀ p ∈ splitByYear items, p.1 = "unknown" →
      p.2 = items.filter fun i => i.year == "") := by
  have hsp : splitByYear items =
      specGroups (fun i : BItem => if i.year == "" then "unknown" else i.year) items :=
    groupByKey_eq_specGroups _ _
  rw [hsp]
  set k : BItem → String := fun i => if i.year == "" then "unknown" else i.year with hk
  have hk_year : ∀ i ∈ items, i.year ≠ "" → k i = i.year := by
    intro i _ hne
    rw [hk]
    exact if_neg (by simpa using hne)
  have hk_empty : ∀ i : BItem, i.year = "" → k i = "unknown" := by
    intro i hne
    rw [hk]
    simp [hne]
  refine ⟨?_, ?_, ?_, ?_, ?_⟩
  · rw [specGroups, List.map_map]
    have : (Prod.fst ∘ fun key => (key, items.filter fun x => k x == key)) = id := by
      funext key; rfl
    rw [this, List.map_id]
    exact nodup_dedupKeepFirst _
  · intro p hp
    rw [specGroups] at hp
    rcases List.mem_map.mp hp with ⟨key, hkey, rfl⟩
    have hkm : key ∈ items.map k := mem_dedupKeepFirst_iff.mp hkey
    rcases List.mem_map.mp hkm with ⟨i, hi, rfl⟩
    have : i ∈ items.filter fun x => k x == k i := List.mem_filter.mpr ⟨hi, by simp⟩
    exact List.ne_nil_of_mem this
  · intro p hp hne
    rw [specGroups] at hp
    rcases List.mem_map.mp hp with ⟨key, hkey, rfl⟩
    have hkm : key ∈ items.map k := mem_dedupKeepFirst_iff.mp hkey
    rcases List.mem_map.mp hkm with ⟨i, hi, rfl⟩
    simp only at hne
    have hiy : i.year ≠ "" := by
      intro hempty
      exact hne (hk_empty i hempty)
    have hki : k i = i.year := hk_year i hi hiy
    constructor
    · rw [hki, knownYearsOf, mem_dedupKeepFirst_iff]
      exact List.mem_map_of_mem _ (List.mem_filter.mpr ⟨hi, by simpa using hiy⟩)
    · intro j hj
      have hjf := List.mem_filter.mp hj
      have hkj : k j = k i := by simpa using hjf.2
      have hjy : j.year ≠ "" := by
        intro hempty
        rw [hk_empty j hempty] at hkj
        exact hne (by simp only [hkj.symm])
      rw [hk_year j hjf.1 hjy] at hkj
      simpa only [hki] using hkj
  · intro y hy'
    rw [knownYearsOf, mem_dedupKeepFirst_iff] at hy'
    rcases List.mem_map.mp hy' with ⟨i, hif, rfl⟩
    have hif' := List.mem_filter.mp hif
    have hiy : i.year ≠ "" := by simpa using hif'.2
    refine ⟨(i.year, items.filter fun x => k x == i.year), ?_, rfl⟩
    rw [specGroups]
    apply List.mem_map_of_mem
    rw [mem_dedupKeepFirst_iff]
    have : k i = i.year := hk_year i hif'.1 hiy
    exact this ▸ List.mem_map_of_mem k hif'.1
  · intro p hp hpu
    rw [specGroups] at hp
    rcases List.mem_map.mp hp with ⟨key, hkey, rfl⟩
    simp only at hpu
    subst hpu
    apply List.filter_congr
    intro i hi
    by_cases hiy : i.year = ""
    · simp [hk_empty i hiy, hiy]
    · rw [hk_year i hi hiy]
      have hnu : i.year ≠ "unknown" := by
        rw [hy i hi]
        exact extract_year_ne_unknown _
      simp [hnu, hiy]

theorem foldTorrent_torrents (m : Movie) (c : AddCall) :
    ∃ t, (foldTorrent m c).torrents = m.torrents ++ [t] ∧ t.hash = c.info_hash ∧
      t.quality = extract_quality_agg c.name := by
  simp only [foldTorrent]
  split_ifs <;> exact ⟨_, rfl, rfl, rfl⟩

theorem perMovieHashes_foldTorrent (m : Movie) (c : AddCall) (key : String) :
    perMovieHashes (key, foldTorrent m c) =
      perMovieHashes (key, m) ++ [toLowerStr c.info_hash] := by
  rcases foldTorrent_torrents m c with ⟨t, ht, hh, _⟩
  unfold perMovieHashes
  rw [ht, List.map_append]
  simp [hh]

theorem map_upd_of_no_key {key : String} {c : AddCall} {ms : List (String × Movie)}
    (h : ∀ p ∈ ms, p.1 ≠ key) :
    ms.map (fun p => if p.1 == key then (p.1, foldTorrent p.2 c) else p) = ms := by
  rw [List.map_congr_left fun p hp => if_neg (by simpa using h p hp)]
  exact List.map_id ms

theorem keys_map_upd {key : String} {c : AddCall} (ms : List (String × Movie)) :
    (ms.map (fun p => if p.1 == key then (p.1, foldTorrent p.2 c) else p)).map Prod.fst =
      ms.map Prod.fst := by
  rw [List.map_map]
  apply List.map_congr_left
  intro p _
  by_cases h : p.1 == key
  · rw [Function.comp_apply, if_pos h]
  · rw [Function.comp_apply, if_neg h]

/-- Folding a fresh torrent into the movie map keeps the stored hashes
duplicate-free and adds at most the new lower-cased hash. -/
theorem flatten_upd_inv {key : String} {c : AddCall} {seen : List String}
    (hL : String) (hc : toLowerStr c.info_hash = hL) :
    ∀ ms : List (String × Movie), (ms.map Prod.fst).Nodup →
      ((ms.map perMovieHashes).flatten).Nodup →
      (∀ h ∈ (ms.map perMovieHashes).flatten, h ∈ seen) →
      hL ∉ seen →
      (((ms.map (fun p => if p.1 == key then (p.1, foldTorrent p.2 c) else p)).map
          perMovieHashes).flatten).Nodup ∧
      ∀ h ∈ ((ms.map (fun p => if p.1 == key then (p.1, foldTorrent p.2 c) else p)).map
          perMovieHashes).flatten, h ∈ (ms.map perMovieHashes).flatten ∨ h = hL := by
  intro ms
  induction ms with
  | nil => intro _ _ _ _; exact ⟨List.nodup_nil, by simp⟩
  | cons p rest ih =>
    intro hkeys hnd hsub hfresh
    rw [List.map_cons, List.nodup_cons] at hkeys
    simp only [List.map_cons, List.flatten_cons] at hnd hsub ⊢
    have hnd' := List.nodup_append.mp hnd
    by_cases hp : p.1 == key
    · have hpkey : p.1 = key := beq_iff_eq.mp hp
      have hrest : ∀ q ∈ rest, q.1 ≠ key := by
        intro q hq hqk
        have hq1 : q.1 ∈ rest.map Prod.fst := List.mem_map_of_mem Prod.fst hq
        rw [hqk, ← hpkey] at hq1
        exact hkeys.1 hq1
      rw [if_pos hp, map_upd_of_no_key hrest]
      have hpmh : perMovieHashes (p.1, foldTorrent p.2 c) =
          perMovieHashes p ++ [hL] := by
        rw [show perMovieHashes p = perMovieHashes (p.1, p.2) from rfl,
          perMovieHashes_foldTorrent, hc]
      rw [hpmh]
      constructor
      · rw [List.append_assoc, List.singleton_append, List.nodup_middle, List.nodup_cons]
        refine ⟨?_, hnd⟩
        intro hmem
        exact hfresh (hsub hL hmem)
      · intro h hmem
        rw [List.append_assoc, List.singleton_append, List.mem_append, List.mem_cons] at hmem
        rcases hmem with h1 | h1 | h1
        · exact Or.inl (List.mem_append_left _ h1)
        · exact Or.inr h1
        · exact Or.inl (List.mem_append_right _ h1)
    · rw [if_neg hp]
      have hsub' : ∀ h ∈ (rest.map perMovieHashes).flatten, h ∈ seen := by
        intro h hm
        exact hsub h (List.mem_append_right _ hm)
      rcases ih hkeys.2 hnd'.2.1 hsub' hfresh with ⟨ihnd, ihmem⟩
      constructor
      · rw [List.nodup_append]
        refine ⟨hnd'.1, ihnd, ?_⟩
        intro x hx hx'
        rcases ihmem x hx' with h1 | rfl
        · exact hnd'.2.2 hx h1
        · exact hfresh (hsub x (List.mem_append_left _ hx))
      · intro h hmem
        rcases List.mem_append.mp hmem with h1 | h1
        · exact Or.inl (List.mem_append_left _ h1)
        · rcases ihmem h h1 with h2 | h2
          · exact Or.inl (List.mem_append_right _ h2)
          · exact Or.inr h2

/-- `add_torrent` preserves the aggregator invariant. -/
theorem add_torrent_inv {st : AggState} {c : AddCall} (hinv : AggInv st) :
    AggInv (add_torrent st c) := by
  rcases hinv with ⟨hkeys, hnd, hsub⟩
  simp only [add_torrent]
  by_cases h1 : c.info_hash == "" || c.info_hash == zeros40
  · rw [if_pos h1]; exact ⟨hkeys, hnd, hsub⟩
  · rw [if_neg h1]
    by_cases h2 : st.seen.contains (toLowerStr c.info_hash)
    · rw [if_pos h2]; exact ⟨hkeys, hnd, hsub⟩
    · rw [if_neg h2]
      have hfresh : toLowerStr c.info_hash ∉ st.seen := by
        intro hm
        exact h2 (List.elem_eq_true_of_mem hm)
      set key := get_movie_key c.title c.year with hkeydef
      by_cases hany : st.movies.any fun p => p.1 == key
      · rw [if_pos hany]
        rcases @flatten_upd_inv key c st.seen
            (toLowerStr c.info_hash) rfl st.movies hkeys hnd hsub hfresh with ⟨h3, h4⟩
        refine ⟨?_, h3, ?_⟩
        · show ((st.movies.map fun p =>
              if p.1 == key then (p.1, foldTorrent p.2 c) else p).map Prod.fst).Nodup
          rw [keys_map_upd]
          exact hkeys
        · intro h hm
          rcases h4 h hm with hh | rfl
          · exact List.mem_append_left _ (hsub h hh)
          · exact List.mem_append_right _ (List.mem_singleton.mpr rfl)
      · rw [if_neg hany]
        have hknotin : key ∉ st.movies.map Prod.fst := by
          intro hm
          rcases List.mem_map.mp hm with ⟨q, hq, hqk⟩
          exact hany (List.any_eq_true.mpr ⟨q, hq, by simp [hqk]⟩)
        have hkeys1 : ((st.movies ++ [(key, newMovie c)]).map Prod.fst).Nodup := by
          rw [List.map_append]
          simp only [List.map_cons, List.map_nil]
          rw [List.nodup_append]
          refine ⟨hkeys, List.nodup_singleton _, ?_⟩
          intro x hx hx'
          rw [List.mem_singleton] at hx'
          exact hknotin (hx' ▸ hx)
        have hflat1 : (((st.movies ++ [(key, newMovie c)]).map perMovieHashes).flatten) =
            (st.movies.map perMovieHashes).flatten := by
          rw [List.map_append, List.flatten_append]
          simp [perMovieHashes, newMovie]
        rcases @flatten_upd_inv key c st.seen
            (toLowerStr c.info_hash) rfl (st.movies ++ [(key, newMovie c)]) hkeys1
            (by rw [hflat1]; exact hnd) (by rw [hflat1]; exact hsub) hfresh with ⟨h3, h4⟩
        refine ⟨?_, h3, ?_⟩
        · show (((st.movies ++ [(key, newMovie c)]).map fun p =>
              if p.1 == key then (p.1, foldTorrent p.2 c) else p).map Prod.fst).Nodup
          rw [keys_map_upd]
          exact hkeys1
        · intro h hm
          rcases h4 h hm with hh | rfl
          · rw [hflat1] at hh
            exact List.mem_append_left _ (hsub h hh)
          · exact List.mem_append_right _ (List.mem_singleton.mpr rfl)

/-- Every reachable aggregator state satisfies the invariant. -/
theorem runAdds_inv (calls : List AddCall) : AggInv (runAdds calls) := by
  suffices h : ∀ st, AggInv st → AggInv (calls.foldl add_torrent st) by
    apply h
    refine ⟨List.nodup_nil, ?_, ?_⟩ <;> simp [allHashes]
  induction calls with
  | nil => intro st h; exact h
  | cons c rest ih =>
    intro st h
    exact ih _ (add_torrent_inv h)

/-- The lib grouper's first pass equals keep-first-by-hash deduplication of
the parseable records followed by the non-empty-title filter. -/
theorem libFirstPassGo_spec (l : List String) :
    ∀ seen : List String,
      libFirstPassGo seen l =
        ((dedupByGo (fun p : LItem × String => p.1.hash) seen
          (l.filterMap libParseLine)).filter fun p => p.2 != "").map Prod.fst := by
  induction l with
  | nil => intro seen; rfl
  | cons line rest ih =>
    intro seen
    unfold libFirstPassGo
    split
    next hp =>
      rw [List.filterMap_cons_none hp]
      exact ih seen
    next item title hp =>
      rw [List.filterMap_cons_some hp]
      unfold dedupByGo
      by_cases hc : seen.contains item.hash
      · rw [if_pos hc, if_pos (show seen.contains ((item, title).1.hash) = true from hc)]
        exact ih seen
      · rw [if_neg hc, if_neg (show ¬seen.contains ((item, title).1.hash) = true from hc)]
        by_cases ht : title == ""
        · rw [if_pos ht,
            List.filter_cons_of_neg (p := fun p : LItem × String => p.2 != "")
              (a := (item, title)) (by simpa using ht)]
          exact ih (seen ++ [item.hash])
        · rw [if_neg ht,
            List.filter_cons_of_pos (p := fun p : LItem × String => p.2 != "")
              (a := (item, title)) (by simpa using ht),
            List.map_cons]
          rw [ih (seen ++ [item.hash])]

/-- C2: hash-equal records never survive twice.  (1) An `add_torrent` call
whose lower-cased hash is already registered leaves the aggregator state
bitwise unchanged — in particular the duplicate's source is *not* added to
the movie's `sources` set.  (2) In every reachable aggregator state the
stored lower-cased torrent hashes are pairwise distinct.  (3) The lib
grouper's first pass is exactly keep-*first*-by-hash deduplication of the
parseable records (later duplicates are dropped entirely) followed by the
empty-title filter, and (4) its surviving hashes are pairwise distinct. -/
theorem claim_c2 :
    (∀ (st : AggState) (c : AddCall),
      st.seen.contains (toLowerStr c.info_hash) = true → add_torrent st c = st) ∧
    (∀ calls : List AddCall, (allHashes (runAdds calls)).Nodup) ∧
    (∀ lines : List String,
      libFirstPass lines =
        ((dedupKeepFirstBy (fun p : LItem × String => p.1.hash)
          ((libReadLines lines).filterMap libParseLine)).filter fun p => p.2 != "").map
          Prod.fst) ∧
    (∀ lines : List String, ((libFirstPass lines).map fun i => i.hash).Nodup) := by
  have hspec : ∀ lines : List String,
      libFirstPass lines =
        ((dedupKeepFirstBy (fun p : LItem × String => p.1.hash)
          ((libReadLines lines).filterMap libParseLine)).filter fun p => p.2 != "").map
          Prod.fst := by
    intro lines
    rw [libFirstPass, dedupKeepFirstBy]
    exact libFirstPassGo_spec _ []
  refine ⟨?_, fun calls => (runAdds_inv calls).2.1, hspec, ?_⟩
  · intro st c h
    simp only [add_torrent]
    by_cases h1 : c.info_hash == "" || c.info_hash == zeros40
    · rw [if_pos h1]
    · rw [if_neg h1, if_pos h]
  · intro lines
    rw [hspec lines, List.map_map]
    have hsub : (((dedupKeepFirstBy (fun p : LItem × String => p.1.hash)
        ((libReadLines lines).filterMap libParseLine)).filter fun p => p.2 != "").map
          ((fun i => i.hash) ∘ Prod.fst)).Sublist
        ((dedupKeepFirstBy (fun p : LItem × String => p.1.hash)
          ((libReadLines lines).filterMap libParseLine)).map
            (fun p : LItem × String => p.1.hash)) :=
      (List.filter_sublist _).map _
    exact (nodup_map_dedupByGo (fun p : LItem × String => p.1.hash) _ []).sublist hsub

/-- C2 witness: a duplicate-hash call (matching up to case) leaves a
concrete state unchanged, and a concrete duplicate-bearing input stream
keeps only the first-seen record. -/
theorem claim_c2_witness :
    add_torrent { movies := [], seen := ["abc123"] }
        ⟨"TPB", "T", "1999", "N", "ABC123", 3, 0, 0, "", "", ""⟩ =
      { movies := [], seen := ["abc123"] } ∧
    ((libFirstPass
      ["TPB|Alpha Movie 1999|magnet:?xt=urn:btih:aaaaaaaaaaaaaaaaaaaaaaaaaaaaaaaaaaaaaaaa|720p|1GB|5",
       "YTS|Alpha Movie 1999|magnet:?xt=urn:btih:AAAAAAAAAAAAAAAAAAAAAAAAAAAAAAAAAAAAAAAA|1080p|2GB|9"]).map
        fun i => i.hash).Nodup :=
  ⟨claim_c2.1 _ _ (by decide), claim_c2.2.2.2 _⟩

/-- C1 witness: the theorem applied to a concrete Total-Recall-style bucket
with years 1990, 2012 and one year-less record. -/
theorem claim_c1_witness :
    ((splitByYear
      [⟨"o1", "S", "Total Recall 1990", "m1", "q", "z", 3, "N/A", "1990"⟩,
       ⟨"o2", "S", "Total Recall", "m2", "q", "z", 4, "N/A", ""⟩,
       ⟨"o3", "S", "Total Recall 2012", "m3", "q", "z", 5, "N/A", "2012"⟩]).map Prod.fst).Nodup :=
  (claim_c1 _ (by decide) (by decide)).1

/-- The seeder count of a release's best-ranked torrent, with a torrentless
release counting as zero — the claim-facing reading of `finalize`'s movie
sort key. -/
theorem finalizeMovieKey_eq (m : Movie) : finalizeMovieKey m = -(firstSeeders m) := by
  unfold finalizeMovieKey firstSeeders
  cases m.torrents with
  | nil => simp
  | cons t ts => rfl

/-- C10: the finalized movie list is ordered by the first (best-ranked)
torrent's seeder count, descending, for every aggregator state; a release
with no torrents is keyed as zero seeders. -/
theorem claim_c10 (st : AggState) :
    (finalize st).Pairwise fun a b => firstSeeders b ≤ firstSeeders a := by
  unfold finalize
  have hp := @pairwise_pySort2 Movie (fun _ : Movie => (0 : Nat)) finalizeMovieKey
    (st.movies.map fun p =>
      { p.2 with sources := sortStringsPy p.2.sources, torrents := sortTorrents p.2.torrents })
  refine hp.imp ?_
  intro a b h
  rcases h with h | ⟨_, h⟩
  · simp at h
  · rw [finalizeMovieKey_eq, finalizeMovieKey_eq] at h
    omega

theorem extract_quality_agg_mem (name : String) :
    extract_quality_agg name ∈ qualProducible := by
  simp only [extract_quality_agg]
  split
  next p hf =>
    have hmem := List.mem_of_find?_eq_some hf
    fin_cases hmem <;> decide
  next hf => decide

theorem add_torrent_qualinv {st : AggState} {c : AddCall} (hinv : QualInv st) :
    QualInv (add_torrent st c) := by
  simp only [add_torrent]
  by_cases h1 : c.info_hash == "" || c.info_hash == zeros40
  · rw [if_pos h1]; exact hinv
  · rw [if_neg h1]
    by_cases h2 : st.seen.contains (toLowerStr c.info_hash)
    · rw [if_pos h2]; exact hinv
    · rw [if_neg h2]
      set key := get_movie_key c.title c.year
      have hbase : QualInv
          ⟨(if st.movies.any fun p => p.1 == key then st.movies
            else st.movies ++ [(key, newMovie c)]),
            st.seen ++ [toLowerStr c.info_hash]⟩ := by
        intro p hp t ht
        by_cases hany : st.movies.any fun p => p.1 == key
        · rw [if_pos hany] at hp
          exact hinv p hp t ht
        · rw [if_neg hany] at hp
          rcases List.mem_append.mp hp with hp' | hp'
          · exact hinv p hp' t ht
          · rw [List.mem_singleton] at hp'
            subst hp'
            simp [newMovie] at ht
      intro p hp t ht
      rcases List.mem_map.mp hp with ⟨q, hq, rfl⟩
      by_cases hqk : q.1 == key
      · rw [if_pos hqk] at ht
        rcases foldTorrent_torrents q.2 c with ⟨nt, hnt, _, hqual⟩
        have ht2 : t ∈ q.2.torrents ++ [nt] := by
          rw [← hnt]
          exact ht
        rcases List.mem_append.mp ht2 with ht' | ht'
        · exact hbase q hq t ht'
        · rw [List.mem_singleton] at ht'
          subst ht'
          rw [hqual]
          exact extract_quality_agg_mem c.name
      · rw [if_neg hqk] at ht
        exact hbase q hq t ht

theorem runAdds_qualinv (calls : List AddCall) : QualInv (runAdds calls) := by
  suffices h : ∀ st, QualInv st → QualInv (calls.foldl add_torrent st) by
    apply h
    intro p hp
    simp at hp
  induction calls with
  | nil => intro st h; exact h
  | cons c rest ih =>
    intro st h
    exact ih _ (add_torrent_qualinv h)

/-- On the producible qualities, `finalize`'s local tier table induces
exactly the same order as the grouper's `QUALITY_ORDER` table stated in the
claim (tiers 0–7 there versus 0–3, 5–7, 99 here, in the same relative
order; `HDTV`, tier 4 of the claimed table, is never produced). -/
theorem tier_tables_agree :
    ∀ q1 ∈ qualProducible, ∀ q2 ∈ qualProducible,
      (lookupD quality_order_finalize q1 99 < lookupD quality_order_finalize q2 99 →
        get_quality_sort_key q1 < get_quality_sort_key q2) ∧
      (lookupD quality_order_finalize q1 99 = lookupD quality_order_finalize q2 99 →
        get_quality_sort_key q1 = get_quality_sort_key q2) := by
  intro q1 h1 q2 h2
  fin_cases h1 <;> fin_cases h2 <;> constructor <;> decide

/-- C6: in every Release the aggregator emits, the torrents are ordered by
the claimed quality-tier table (`QUALITY_ORDER`: 4K/2160p=0, 1080p=1,
720p=2, 480p=3, HDTV=4, CAM=5, TS=6, TC=7, Unknown=99) ascending and, on
equal tiers, by seeders descending; and the sort is stable — filtering any
single (quality, seeders) class out of the sorted torrent list yields
exactly the same sequence as filtering the original encounter-ordered
list. -/
theorem claim_c6 :
    (∀ calls : List AddCall, ∀ m ∈ finalize (runAdds calls),
      m.torrents.Pairwise fun a b =>
        get_quality_sort_key a.quality ≤ get_quality_sort_key b.quality ∧
          (get_quality_sort_key a.quality = get_quality_sort_key b.quality →
            b.seeders ≤ a.seeders)) ∧
    (∀ (l : List Torrent) (q : String) (s : Int),
      (sortTorrents l).filter (fun t => t.quality == q && t.seeders == s) =
        l.filter fun t => t.quality == q && t.seeders == s) := by
  constructor
  · intro calls m hm
    have hqi := runAdds_qualinv calls
    unfold finalize at hm
    rw [mem_pySort2] at hm
    rcases List.mem_map.mp hm with ⟨p, hp, rfl⟩
    simp only
    have hqual : ∀ t ∈ sortTorrents p.2.torrents, t.quality ∈ qualProducible := by
      intro t ht
      exact hqi p hp t (mem_pySort2.mp ht)
    have hpw := @pairwise_pySort2 Torrent finalizeTier (fun t => -t.seeders)
      p.2.torrents
    refine hpw.imp_of_mem ?_
    intro a b ha hb h
    have hta := tier_tables_agree a.quality (hqual a ha) b.quality (hqual b hb)
    rcases h with h | ⟨heq, hs⟩
    · constructor
      · exact Nat.le_of_lt (hta.1 h)
      · intro hclaim
        exact absurd hclaim (Nat.ne_of_lt (hta.1 h))
    · have hs' : -a.seeders ≤ -b.seeders := hs
      constructor
      · exact Nat.le_of_eq (hta.2 heq)
      · intro _
        omega
  · intro l q s
    exact filter_pySort2 (n := lookupD quality_order_finalize q 99) (i := -s)
      (fun x hx => by
        have hx' := (Bool.and_eq_true _ _).mp hx
        have h1 : x.quality = q := beq_iff_eq.mp hx'.1
        have h2 : x.seeders = s := beq_iff_eq.mp hx'.2
        exact ⟨by rw [show finalizeTier x = lookupD quality_order_finalize x.quality 99
            from rfl, h1], by rw [h2]⟩) l

/-- C6 witness: the theorem applied to the release built from a concrete
two-quality call sequence, and to a concrete three-torrent list with a
(720p, 3-seeder) tie whose encounter order the sort must keep. -/
theorem claim_c6_witness :
    ((finalize (runAdds c6calls)).headD ⟨"", "", "", "", "", [], []⟩).torrents.Pairwise
      (fun a b =>
        get_quality_sort_key a.quality ≤ get_quality_sort_key b.quality ∧
          (get_quality_sort_key a.quality = get_quality_sort_key b.quality →
            b.seeders ≤ a.seeders)) ∧
    (sortTorrents c6list).filter
        (fun t => t.quality == "720p" && t.seeders == (3 : Int)) =
      c6list.filter fun t => t.quality == "720p" && t.seeders == (3 : Int) :=
  ⟨claim_c6.1 c6calls _ (by decide), claim_c6.2 c6list "720p" 3⟩

end Termflix

